import Mathlib

/-!
# Verification of the expense-audit detection core

Shallow embedding of `src/app/utils.py` (text/amount normalisation, tolerant
float parsing) and `src/app/auditor.py` (duplicate detector, weekend flagger,
threshold flagger, Benford analyzer, suspicious-keyword flagger, discrepancy
flagger), together with theorems settling the specification claims.

Modelling decisions (stated once here, referenced from the definitions):

* Python `dict` rows become association lists `Record = List (String × Value)`;
  `dict.get` is first-match lookup, `d[k] = v` overwrites in place or appends.
* Python `float` values are modelled exactly: a parsed decimal literal becomes
  the rational it denotes (IEEE-754 binary rounding is not modelled, and the
  sign of a floating-point negative zero is not tracked), while the special
  spellings accepted by `float(...)` become `PyFloat.infinite`/`PyFloat.nan`
  with Python's comparison semantics (`nan` compares false to everything).
  The `:.2f` formatter rounds the exact rational, resolving exact halfway
  cases to even; CPython resolves them on the binary value instead, which
  agrees except on decimal halfway cases whose double representation falls
  the other way.
* Rational arithmetic inside the executable definitions is written with
  `mkRat` and `num`/`den` projections (`qadd`, `qmul`, `qneg`, `qabs`,
  `qmax`) because the library's `Rat.add` etc. are irreducible to the
  kernel; the lemmas `qadd_eq`, … identify them with the ordinary field
  operations, and all theorem statements use the ordinary operations.
* `unicodedata.normalize("NFKC", ·)` is not expressible as a small executable
  function, so `normalize_text` takes the composition table as an explicit
  function argument `nfkc : String → String`; every theorem quantifies over
  it, and concrete witnesses instantiate it with `id` on strings that NFKC
  fixes (plain ASCII).
* `str.isdigit`, `str.lower`, `str.strip` and the digit characters accepted
  by `float`/`int` are modelled at their ASCII meaning; the detectors are
  only ever run on CSV text for which these coincide with Python's Unicode
  versions.
* `datetime.strptime` is modelled for the directives the auditor uses
  (`%Y`, `%m`, `%d` and literal separators), following CPython's `_strptime`
  regular expressions: `%Y` is exactly four digits, `%m`/`%d` prefer a valid
  two-digit match and fall back to one digit with backtracking, the whole
  string must be consumed, and the resulting triple must be a real calendar
  date with year at least 1. A format is a list of tokens; the list of
  candidate formats is passed as a list of parsers.
-/

/-! ## Kernel-friendly rational arithmetic -/

/-- `(n : ℚ)` built so that the kernel can evaluate it. -/
def qOfInt (n : ℤ) : ℚ := mkRat n 1

/-- Addition on `ℚ` via `mkRat` (kernel-evaluable; equals `+`). -/
def qadd (a b : ℚ) : ℚ := mkRat (a.num * b.den + b.num * a.den) (a.den * b.den)

/-- Negation on `ℚ` via `mkRat`. -/
def qneg (a : ℚ) : ℚ := mkRat (-a.num) a.den

/-- Subtraction on `ℚ` via `mkRat`. -/
def qsub (a b : ℚ) : ℚ := qadd a (qneg b)

/-- Multiplication on `ℚ` via `mkRat`. -/
def qmul (a b : ℚ) : ℚ := mkRat (a.num * b.num) (a.den * b.den)

/-- Absolute value on `ℚ` via `mkRat`. -/
def qabs (a : ℚ) : ℚ := mkRat a.num.natAbs a.den

/-- Python `max` on two rationals (returns the first argument on ties). -/
def qmax (a b : ℚ) : ℚ := if a < b then b else a

/-! ## Values, records, and Python string primitives -/

/-- A Python value as it can appear in a row: CSV cells are strings, and the
duplicate detector adds the integer `_dup_count`. -/
inductive Value where
  | str (s : String)
  | int (n : Nat)
deriving DecidableEq

/-- A row (`Dict[str, str]` plus detector metadata): association list in
insertion order. -/
abbrev Record := List (String × Value)

/-- Character for a decimal digit value (`0 ≤ k ≤ 9` in all uses). -/
def digCh (k : Nat) : Char := Char.ofNat (48 + k)

/-- Fuel-driven digit expansion (structural recursion so that the kernel
can evaluate it; `fuel > n` in all uses). -/
def natDigitsAux : Nat → Nat → List Char
  | 0, _ => []
  | fuel + 1, n => if n < 10 then [digCh n] else natDigitsAux fuel (n / 10) ++ [digCh (n % 10)]

/-- Decimal digit string of a natural number, most significant first
(the characters of Python `str(n)`). -/
def natDigits (n : Nat) : List Char := natDigitsAux (n + 1) n

/-- Python `str` applied to a row value. -/
def Value.pyStr : Value → String
  | .str s => s
  | .int n => ⟨natDigits n⟩

/-- Python truthiness of a row value (`not s` in `parse_float`). -/
def Value.pyFalsy : Value → Bool
  | .str s => s == ""
  | .int n => n == 0

/-- `r.get(k)`: value of the first binding of `k`, if any. -/
def Record.get? (r : Record) (k : String) : Option Value :=
  (r.find? (fun p => p.1 == k)).map Prod.snd

/-- `r[k] = v`: overwrite every binding of `k` in place, or append a new
binding (on genuine dict rows the key is bound at most once). -/
def Record.set (r : Record) (k : String) (v : Value) : Record :=
  if r.any (fun p => p.1 == k) then r.map (fun p => if p.1 == k then (k, v) else p)
  else r ++ [(k, v)]

/-- ASCII reading of Python `str.isdigit` (see the module comment). -/
def pyDigit (c : Char) : Bool := 48 ≤ c.toNat && c.toNat ≤ 57

/-- Whitespace stripped by `str.strip` (ASCII part). -/
def pyWS (c : Char) : Bool :=
  c = ' ' || c = '\t' || c = '\n' || c = '\r' || c = '\x0b' || c = '\x0c'

/-- Python `str.strip()`. -/
def pyStrip (s : String) : String :=
  ⟨((s.data.dropWhile pyWS).reverse.dropWhile pyWS).reverse⟩

/-- ASCII reading of Python `str.lower` on one character. -/
def charLower (c : Char) : Char :=
  if 65 ≤ c.toNat && c.toNat ≤ 90 then Char.ofNat (c.toNat + 32) else c

/-- Python `str.lower()`. -/
def pyLower (s : String) : String := ⟨s.data.map charLower⟩

/-- `s.replace(c, "")` for a one-character pattern. -/
def removeChar (c : Char) (s : String) : String := ⟨s.data.filter (fun x => x != c)⟩

/-- The dash-like code points unified by `_DASH_MAP` in `utils.py`. -/
def dashChars : List Char := ['‐', '-', '‒', '–', '—', '―', '﹘', '﹣', '－']

/-- `str.translate(_DASH_MAP)`. -/
def dashTr (s : String) : String :=
  ⟨s.data.map (fun c => if c ∈ dashChars then '-' else c)⟩

/-- `utils.normalize_text`: NFKC (passed as `nfkc`), unify dashes, strip,
lowercase; `None` becomes `""`. -/
def normalize_text (nfkc : String → String) : Option Value → String
  | none => ""
  | some v => pyLower (pyStrip (dashTr (nfkc v.pyStr)))

/-! ## Python floats: parsing, comparison, formatting -/

/-- A Python float: exact rational for finite values, plus the two
non-finite shapes `float(...)` can return. -/
inductive PyFloat where
  | finite (q : ℚ)
  | infinite (neg : Bool)
  | nan
deriving DecidableEq

/-- `a > x` for a Python float `a` and a finite bound `x`. -/
def PyFloat.gtv : PyFloat → ℚ → Bool
  | .finite q, x => decide (x < q)
  | .infinite n, _ => !n
  | .nan, _ => false

/-- `a ≤ x` for a Python float `a` and a finite bound `x`. -/
def PyFloat.lev : PyFloat → ℚ → Bool
  | .finite q, x => decide (q ≤ x)
  | .infinite n, _ => n
  | .nan, _ => false

/-- `x < a` for a finite bound `x` and a Python float `a`. -/
def qltF (x : ℚ) : PyFloat → Bool
  | .finite q => decide (x < q)
  | .infinite n => !n
  | .nan => false

/-- Python float subtraction on the modelled shapes. -/
def PyFloat.sub : PyFloat → PyFloat → PyFloat
  | .nan, _ => .nan
  | _, .nan => .nan
  | .infinite a, .infinite b => if a = b then .nan else .infinite a
  | .infinite a, .finite _ => .infinite a
  | .finite _, .infinite b => .infinite (!b)
  | .finite p, .finite q => .finite (qsub p q)

/-- Python `abs` on floats. -/
def PyFloat.pyAbs : PyFloat → PyFloat
  | .finite q => .finite (qabs q)
  | .infinite _ => .infinite false
  | .nan => .nan

/-- Each `_` must sit between two digits (CPython's underscore rule for
numeric literals accepted by `float`). -/
def usOk : Option Char → List Char → Bool
  | _, [] => true
  | p, '_' :: rest =>
    (match p with | some c => pyDigit c | none => false) &&
    (match rest with | c :: _ => pyDigit c | [] => false) && usOk (some '_') rest
  | _, c :: rest => usOk (some c) rest

/-- Optional leading sign; returns (isNegative, rest). -/
def splitSign : List Char → Bool × List Char
  | '+' :: t => (false, t)
  | '-' :: t => (true, t)
  | t => (false, t)

/-- Value of a string of decimal digits. -/
def natOfDigits (ds : List Char) : Nat := ds.foldl (fun n c => n * 10 + (c.toNat - 48)) 0

/-- Exact value of `mantissa integer part ++ fractional part` as a rational:
`ip.fp` means `(ip·10^|fp| + fp) / 10^|fp|`. -/
def decValue (ip fp : List Char) : ℚ :=
  mkRat ((natOfDigits ip : ℤ) * ((10 ^ fp.length : ℕ) : ℤ) + (natOfDigits fp : ℤ))
    (10 ^ fp.length)

/-- Scale by `10^e` with sign `eneg` (decimal exponent). -/
def scale10 (q : ℚ) (eneg : Bool) (e : Nat) : ℚ :=
  if eneg then qmul q (mkRat 1 (10 ^ e)) else qmul q (mkRat ((10 ^ e : ℕ) : ℤ) 1)

/-- CPython `float(s)` on an already-stripped string: optional sign, then
`inf`/`infinity`/`nan` (any case) or a decimal literal with optional
fractional part and exponent; underscores allowed between digits. Returns
`none` where `float` raises `ValueError`. -/
def parsePyFloat (s : String) : Option PyFloat :=
  if usOk none s.data = false then none else
  let cs := s.data.filter (fun c => c != '_')
  let sn := splitSign cs
  let body := sn.2
  let low := body.map charLower
  if low = "inf".data || low = "infinity".data then some (.infinite sn.1)
  else if low = "nan".data then some .nan
  else
    let ip := body.takeWhile pyDigit
    let r1 := body.dropWhile pyDigit
    let fp := match r1 with
      | '.' :: t => t.takeWhile pyDigit
      | _ => []
    let r2 := match r1 with
      | '.' :: t => t.dropWhile pyDigit
      | _ => r1
    if ip.isEmpty && fp.isEmpty then none
    else
      let mant := decValue ip fp
      let fin : ℚ → Option PyFloat := fun q => some (.finite (if sn.1 then qneg q else q))
      match r2 with
      | [] => fin mant
      | e :: t =>
        if e = 'e' || e = 'E' then
          let es := splitSign t
          let ed := es.2.takeWhile pyDigit
          let r3 := es.2.dropWhile pyDigit
          if ed.isEmpty || !r3.isEmpty then none
          else fin (scale10 mant es.1 (natOfDigits ed))
        else none

/-- The stripping shared by `parse_float` and `normalize_amount`:
`str(s).replace("$", "").replace(",", "").strip()`. -/
def moneyRaw (s : String) : String := pyStrip (removeChar ',' (removeChar '$' s))

/-- `utils.parse_float`: `None`/falsy input gives `None`, otherwise strip
currency noise and run `float`, swallowing `ValueError`. -/
def parse_float (s : Option Value) : Option PyFloat :=
  match s with
  | none => none
  | some v => if v.pyFalsy then none else parsePyFloat (moneyRaw v.pyStr)

/-- Round half to even (ties resolved to the even integer). -/
def rhalfEven (x : ℚ) : ℤ :=
  let n := x.floor
  let f := qsub x (qOfInt n)
  if f < mkRat 1 2 then n
  else if mkRat 1 2 < f then n + 1
  else if n % 2 = 0 then n else n + 1

/-- Python `round(x, 2)` on the exact-rational model. -/
def roundQ2 (x : ℚ) : ℚ := mkRat (rhalfEven (qmul x (qOfInt 100))) 100

/-- `f"{q:.2f}"` for a finite value: sign, integer digits, point, exactly
two fractional digits. -/
def fmtFixed2 (q : ℚ) : String :=
  let n : Nat := (rhalfEven (qmul (qabs q) (qOfInt 100))).toNat
  ⟨(if q.num < 0 then ['-'] else []) ++ natDigits (n / 100) ++
    ['.', digCh (n % 100 / 10), digCh (n % 100 % 10)]⟩

/-- `f"{x:.2f}"` on any Python float (`inf`, `-inf` and `nan` print as
themselves). -/
def PyFloat.fmt2 : PyFloat → String
  | .finite q => fmtFixed2 q
  | .infinite n => if n then "-inf" else "inf"
  | .nan => "nan"

/-- `utils.normalize_amount`: `None` gives `""`, else strip currency noise
and format with two decimals, with `ValueError` collapsing to `""`. -/
def normalize_amount (s : Option Value) : String :=
  match s with
  | none => ""
  | some v =>
    match parsePyFloat (moneyRaw v.pyStr) with
    | none => ""
    | some x => x.fmt2

/-! ## Dates: `datetime.strptime` for `%Y`/`%m`/`%d` formats, and `weekday()` -/

/-- A calendar date as produced by `datetime.strptime` (time parts unused). -/
structure DateT where
  y : Nat
  m : Nat
  d : Nat
deriving DecidableEq

/-- One directive of a date format string. -/
inductive FTok where
  | year4
  | month
  | day
  | lit (c : Char)
deriving DecidableEq

/-- Fields captured while matching (strptime defaults: 1900-01-01). -/
structure DParts where
  y : Nat
  m : Nat
  d : Nat
deriving DecidableEq

/-- Match a token list against the characters, CPython `_strptime` style:
`%Y` is exactly four digits; `%m` (`1[0-2]|0[1-9]|[1-9]`) and `%d`
(`3[01]|[12]\d|0[1-9]|[1-9]`) try a valid two-digit match first and
backtrack to one digit; literals match exactly; the input must be
consumed completely. -/
def parseToks : List FTok → List Char → DParts → Option DParts
  | [], [], acc => some acc
  | [], _ :: _, _ => none
  | .lit c :: ts, x :: xs, acc => if x = c then parseToks ts xs acc else none
  | .lit _ :: _, [], _ => none
  | .year4 :: ts, a :: b :: c :: d :: xs, acc =>
    if pyDigit a && pyDigit b && pyDigit c && pyDigit d then
      parseToks ts xs { acc with y := natOfDigits [a, b, c, d] }
    else none
  | .year4 :: _, _, _ => none
  | .month :: ts, a :: b :: xs, acc =>
    (if pyDigit a && pyDigit b && 1 ≤ natOfDigits [a, b] && natOfDigits [a, b] ≤ 12 then
       parseToks ts xs { acc with m := natOfDigits [a, b] }
     else none).orElse
    (fun _ =>
      if pyDigit a && 1 ≤ natOfDigits [a] then
        parseToks ts (b :: xs) { acc with m := natOfDigits [a] }
      else none)
  | .month :: ts, [a], acc =>
    if pyDigit a && 1 ≤ natOfDigits [a] then parseToks ts [] { acc with m := natOfDigits [a] }
    else none
  | .month :: _, [], _ => none
  | .day :: ts, a :: b :: xs, acc =>
    (if pyDigit a && pyDigit b && 1 ≤ natOfDigits [a, b] && natOfDigits [a, b] ≤ 31 then
       parseToks ts xs { acc with d := natOfDigits [a, b] }
     else none).orElse
    (fun _ =>
      if pyDigit a && 1 ≤ natOfDigits [a] then
        parseToks ts (b :: xs) { acc with d := natOfDigits [a] }
      else none)
  | .day :: ts, [a], acc =>
    if pyDigit a && 1 ≤ natOfDigits [a] then parseToks ts [] { acc with d := natOfDigits [a] }
    else none
  | .day :: _, [], _ => none

/-- Gregorian leap-year rule (as in `datetime`). -/
def isLeap (y : Nat) : Bool := y % 4 = 0 && (y % 100 != 0 || y % 400 = 0)

/-- Days in a month (as validated by the `datetime` constructor). -/
def daysInMonth (y m : Nat) : Nat :=
  if m = 2 then (if isLeap y then 29 else 28)
  else if m = 4 || m = 6 || m = 9 || m = 11 then 30 else 31

/-- `datetime.strptime(s, fmt)` for a `%Y`/`%m`/`%d` format: regex match,
then the `datetime` constructor's validation (`MINYEAR = 1`, real
calendar day). Returns `none` where Python raises `ValueError`. -/
def strptimeToks (toks : List FTok) (s : String) : Option DateT :=
  match parseToks toks s.data ⟨1900, 1, 1⟩ with
  | none => none
  | some p => if 1 ≤ p.y && 1 ≤ p.d && p.d ≤ daysInMonth p.y p.m then some ⟨p.y, p.m, p.d⟩ else none

/-- `"%Y-%m-%d"`. -/
def fmtISO : String → Option DateT :=
  strptimeToks [.year4, .lit '-', .month, .lit '-', .day]

/-- `"%m/%d/%Y"`. -/
def fmtUS : String → Option DateT :=
  strptimeToks [.month, .lit '/', .day, .lit '/', .year4]

/-- `"%Y/%m/%d"`. -/
def fmtISOSlash : String → Option DateT :=
  strptimeToks [.year4, .lit '/', .month, .lit '/', .day]

/-- The default `date_fmts` tuple of `flag_weekends`. -/
def defaultFmts : List (String → Option DateT) := [fmtISO, fmtUS, fmtISOSlash]

/-- Sakamoto's day-of-week table. -/
def sakamotoT : List Nat := [0, 3, 2, 5, 0, 3, 5, 1, 4, 6, 2, 4]

/-- Python `date.weekday()`: Monday = 0 … Sunday = 6 (via Sakamoto's
congruence, shifted from Sunday-based to Monday-based). -/
def pyWeekday (dt : DateT) : Nat :=
  let y := if dt.m < 3 then dt.y - 1 else dt.y
  ((y + y / 4 - y / 100 + y / 400 + sakamotoT.getD (dt.m - 1) 0 + dt.d) % 7 + 6) % 7

/-- The loop shape shared by the single-pass detectors: per row, optionally
emit one annotated copy, appending in input order. -/
def loopEmit (g : Record → Option Record) (rows : List Record) : List Record :=
  rows.foldl (fun acc r => match g r with | some x => acc ++ [x] | none => acc) []

/-- The inner loop of `flag_weekends`: try each format in order, returning
the first successful parse. -/
def firstParse : List (String → Option DateT) → String → Option DateT
  | [], _ => none
  | f :: fs, s =>
    match f s with
    | some d => some d
    | none => firstParse fs s

/-- `(r.get(date_col) or "")`: first truthy of the value and `""`. -/
def pyOrEmpty (v : Option Value) : String :=
  match v with
  | none => ""
  | some v => if v.pyFalsy then "" else v.pyStr

/-- `auditor.flag_weekends`: strip the date cell, skip falsy/blank, try the
formats in order, and emit `_reason = "weekend"` when `weekday() >= 5`. -/
def flag_weekends (rows : List Record) (date_col : String)
    (date_fmts : List (String → Option DateT)) : List Record :=
  loopEmit (fun r =>
    let s := pyStrip (pyOrEmpty (r.get? date_col))
    if s == "" then none
    else
      match firstParse date_fmts s with
      | none => none
      | some dt => if 5 ≤ pyWeekday dt then some (r.set "_reason" (.str "weekend")) else none) rows

/-- `auditor.flag_threshold`: parse the amount, classify `over_limit`
strictly above `limit`, else `near_limit` in `(limit - buffer, limit]`,
else emit nothing. -/
def flag_threshold (rows : List Record) (amount_col : String) (limit buffer : ℚ) : List Record :=
  loopEmit (fun r =>
    match parse_float (r.get? amount_col) with
    | none => none
    | some amt =>
      let reason : Option String :=
        if amt.gtv limit then some "over_limit"
        else if qltF (qsub limit buffer) amt && amt.lev limit then some "near_limit"
        else none
      match reason with
      | some rs => some (r.set "_reason" (.str rs))
      | none => none) rows

/-- `auditor.SUSPICIOUS_TERMS`. -/
def SUSPICIOUS_TERMS : List String :=
  ["cash", "gift", "party", "casino", "spa", "personal",
   "misc", "various", "round", "facilitation", "consulting"]

/-- Python `term in val` (contiguous substring). -/
def strContains (hay needle : String) : Bool := decide (needle.data <:+: hay.data)

/-- `auditor.flag_suspicious_keywords`: normalise each configured column,
collect every `term (in col)` hit in scan order, and emit one finding per
row with at least one hit. -/
def flag_suspicious_keywords (nfkc : String → String) (rows : List Record)
    (check_cols : List String) : List Record :=
  loopEmit (fun r =>
    let found_terms := (check_cols.map (fun col =>
      let val := normalize_text nfkc (some ((r.get? col).getD (.str "")))
      SUSPICIOUS_TERMS.filterMap (fun term =>
        if strContains val term then some (term ++ " (in " ++ col ++ ")") else none))).flatten
    if found_terms.isEmpty then none
    else
      some ((r.set "_reason" (.str "suspicious_keyword")).set "_details"
        (.str (String.intercalate ", " found_terms)))) rows

/-- `auditor.flag_discrepancies`: parse both amounts, skip if either fails,
flag when `abs(incurred - paid) > 0.01` with a two-decimal gap message. -/
def flag_discrepancies (rows : List Record) (incurred_col paid_col : String) : List Record :=
  loopEmit (fun r =>
    match parse_float (r.get? incurred_col), parse_float (r.get? paid_col) with
    | some incurred, some paid =>
      let diff := (incurred.sub paid).pyAbs
      if diff.gtv (mkRat 1 100) then
        some ((r.set "_reason" (.str "discrepancy")).set "_details"
          (.str ("Diff: $" ++ diff.fmt2)))
      else none
    | _, _ => none) rows

/-! ## Duplicate detector -/

/-- Lexicographic comparison of character lists by code point (Python
string comparison). -/
def charsCmp : List Char → List Char → Ordering
  | [], [] => .eq
  | [], _ :: _ => .lt
  | _ :: _, [] => .gt
  | a :: as, b :: bs =>
    if a.toNat < b.toNat then .lt
    else if b.toNat < a.toNat then .gt
    else charsCmp as bs

/-- Python string comparison. -/
def strCmp (a b : String) : Ordering := charsCmp a.data b.data

/-- Python tuple comparison on the sort key (lexicographic on the three
component strings). -/
def key3Cmp (a b : String × String × String) : Ordering :=
  match strCmp a.1 b.1 with
  | .lt => .lt
  | .gt => .gt
  | .eq =>
    match strCmp a.2.1 b.2.1 with
    | .lt => .lt
    | .gt => .gt
    | .eq => strCmp a.2.2 b.2.2

/-- `a ≤ b` on sort keys. -/
def key3Le (a b : String × String × String) : Bool :=
  match key3Cmp a b with
  | .gt => false
  | _ => true

/-- The sort key of `find_duplicate_invoices`: normalized merchant when the
merchant participates (else `""`), normalized invoice, normalized amount. -/
def dupSortKey (nfkc : String → String) (merchant_col invoice_col amount_col : String)
    (include_merchant : Bool) (x : Record) : String × String × String :=
  (if include_merchant then normalize_text nfkc (x.get? merchant_col) else "",
   normalize_text nfkc (x.get? invoice_col),
   normalize_amount (x.get? amount_col))

/-- The grouping key of `find_duplicate_invoices`: `(m, inv, amt)` with the
merchant included, else `(inv, amt)` (as a list, so the two arities live in
one type). -/
def dupKey (nfkc : String → String) (merchant_col invoice_col amount_col : String)
    (include_merchant : Bool) (r : Record) : List String :=
  if include_merchant then
    [normalize_text nfkc (r.get? merchant_col), normalize_text nfkc (r.get? invoice_col),
     normalize_amount (r.get? amount_col)]
  else
    [normalize_text nfkc (r.get? invoice_col), normalize_amount (r.get? amount_col)]

/-- `buckets[key].append(r)` on an association list kept in key-insertion
order (the iteration order of a Python dict). -/
def addToBucket (k : List String) (r : Record) :
    List (List String × List Record) → List (List String × List Record)
  | [] => [(k, [r])]
  | (k', g) :: bs => if k' = k then (k', g ++ [r]) :: bs else (k', g) :: addToBucket k r bs

/-- The grouping loop of `find_duplicate_invoices`. -/
def bucketsOf (keyf : Record → List String) :
    List Record → List (List String × List Record) → List (List String × List Record)
  | [], bs => bs
  | r :: rs, bs => bucketsOf keyf rs (addToBucket (keyf r) r bs)

/-- The annotated copy a duplicate-cluster member becomes. -/
def annDup (r : Record) (n : Nat) : Record :=
  (r.set "_reason" (.str "duplicate")).set "_dup_count" (.int n)

/-- `auditor.find_duplicate_invoices`: group rows by normalized key, keep
groups of size at least 2, annotate every member, and sort by the
normalized key triple (Python's sort is stable; so is insertion sort). -/
def find_duplicate_invoices (nfkc : String → String) (rows : List Record)
    (merchant_col invoice_col amount_col : String) (include_merchant : Bool) : List Record :=
  let keyf := dupKey nfkc merchant_col invoice_col amount_col include_merchant
  let buckets := bucketsOf keyf rows []
  let dups := (buckets.map (fun p =>
    if 2 ≤ p.2.length then p.2.map (fun item => annDup item p.2.length) else [])).flatten
  List.insertionSort
    (fun x y =>
      key3Le (dupSortKey nfkc merchant_col invoice_col amount_col include_merchant x)
        (dupSortKey nfkc merchant_col invoice_col amount_col include_merchant y) = true)
    dups

/-! ## Benford analyzer -/

/-- One entry of the per-digit breakdown. -/
structure DigitStat where
  digit : Nat
  actual_count : Nat
  actual_pct : ℚ
  expected_pct : ℚ
  diff_pct : ℚ
deriving DecidableEq

/-- The aggregate report. -/
structure BenfordReport where
  total_analyzed : Nat
  stats : List DigitStat
  is_suspicious : Bool
  max_deviation_pct : ℚ
deriving DecidableEq

/-- Result of `calculate_benford_stats`: either the explicit error dict or
a full report. -/
inductive BenfordResult where
  | error (msg : String)
  | ok (rep : BenfordReport)
deriving DecidableEq

/-- The leading digit of a row's amount text: first character that is a
nonzero digit, as a number (`int(digits[0])` on the filtered characters). -/
def leadingDigit (r : Record) (amount_col : String) : Option Nat :=
  ((((r.get? amount_col).getD (.str "")).pyStr).data.filter
      (fun c => pyDigit c && c != '0')).head?.map (fun c => c.toNat - 48)

/-- The valid Benford sample: leading digits of the rows that have one, in
row order. -/
def benfordSamples (rows : List Record) (amount_col : String) : List Nat :=
  rows.filterMap (fun r => leadingDigit r amount_col)

/-- `auditor.calculate_benford_stats`, with the float table
`benford_probs = {d: math.log10(1 + 1/d)}` passed as `probs` (each entry of
the Python dict is one fixed rational, namely the double
`math.log10(1 + 1/d)`; logarithms have no exact executable embedding). -/
def calculate_benford_stats (probs : Nat → ℚ) (rows : List Record) (amount_col : String) :
    BenfordResult :=
  let acc := rows.foldl (fun (acc : (Nat → Nat) × Nat) r =>
    match leadingDigit r amount_col with
    | some d => (fun x => if x = d then acc.1 x + 1 else acc.1 x, acc.2 + 1)
    | none => acc) (fun _ => 0, 0)
  let actual_counts := acc.1
  let total_valid := acc.2
  if total_valid = 0 then .error "No valid amounts found"
  else
    let z := (List.range 9).foldl (fun (z : List DigitStat × ℚ) i =>
      let d := i + 1
      let actual_freq : ℚ := mkRat (actual_counts d) total_valid
      let diff := qabs (qsub actual_freq (probs d))
      (z.1 ++ [{ digit := d, actual_count := actual_counts d,
                 actual_pct := roundQ2 (qmul actual_freq (qOfInt 100)),
                 expected_pct := roundQ2 (qmul (probs d) (qOfInt 100)),
                 diff_pct := roundQ2 (qmul diff (qOfInt 100)) }],
       qmax z.2 diff)) ([], 0)
    .ok { total_analyzed := total_valid, stats := z.1,
          is_suspicious := decide (mkRat 1 20 < z.2),
          max_deviation_pct := roundQ2 (qmul z.2 (qOfInt 100)) }

/-! ## Statement-level definitions used by the claim theorems -/

/-- The weekend-flag predicate: date cell (after `or ""` and strip) is
non-blank, some configured format parses it, and the parsed day is
Saturday or Sunday. -/
def weekendP (date_col : String) (fmts : List (String → Option DateT)) (r : Record) : Bool :=
  let s := pyStrip (pyOrEmpty (r.get? date_col))
  !(s == "") &&
    (match firstParse fmts s with
     | some dt => decide (5 ≤ pyWeekday dt)
     | none => false)

/-- The reserved metadata keys a detector may add or overwrite. -/
def reservedKeys : List String := ["_reason", "_dup_count", "_details"]

/-- The rows sharing one grouping key. -/
def grp (keyf : Record → List String) (rows : List Record) (k : List String) : List Record :=
  rows.filter (fun r => decide (keyf r = k))

/-- How many rows share `r`'s grouping key (including `r` itself). -/
def dupCount (keyf : Record → List String) (rows : List Record) (r : Record) : Nat :=
  (grp keyf rows (keyf r)).length

/-- Shape check: optional minus sign, at least one digit, a point, exactly
two digits (the shape C9 claims for every non-empty normalized amount). -/
def isFixed2Str (s : String) : Bool :=
  let cs := match s.data with
    | '-' :: t => t
    | t => t
  match cs.reverse with
  | c2 :: c1 :: '.' :: rest => pyDigit c1 && pyDigit c2 && !rest.isEmpty && rest.all pyDigit
  | _ => false

/-- Observed count of leading digit `d` over the valid sample. -/
def digitCount (rows : List Record) (c : String) (d : Nat) : Nat :=
  (benfordSamples rows c).count d

/-- Absolute deviation of the observed frequency of digit `d` from the
expected table entry. -/
def benfordDiff (probs : Nat → ℚ) (rows : List Record) (c : String) (d : Nat) : ℚ :=
  qabs (qsub (mkRat (digitCount rows c d) (benfordSamples rows c).length) (probs d))

/-- The running maximum deviation the analyzer computes over digits 1–9. -/
def benfordMaxDev (probs : Nat → ℚ) (rows : List Record) (c : String) : ℚ :=
  (List.range 9).foldl (fun m i => qmax m (benfordDiff probs rows c (i + 1))) 0

/-- The `stats` entry the analyzer builds for loop index `i` (digit `i+1`). -/
def benfordStat (probs : Nat → ℚ) (rows : List Record) (c : String) (i : Nat) : DigitStat :=
  { digit := i + 1,
    actual_count := digitCount rows c (i + 1),
    actual_pct := roundQ2 (qmul (mkRat (digitCount rows c (i + 1))
      (benfordSamples rows c).length) (qOfInt 100)),
    expected_pct := roundQ2 (qmul (probs (i + 1)) (qOfInt 100)),
    diff_pct := roundQ2 (qmul (benfordDiff probs rows c (i + 1)) (qOfInt 100)) }

/-! ## Sanity theorems: the rational toolkit agrees with the field operations -/

theorem qadd_eq (a b : ℚ) : qadd a b = a + b := by
  have ha : (a.den : ℚ) ≠ 0 := by exact_mod_cast a.den_nz
  have hb : (b.den : ℚ) ≠ 0 := by exact_mod_cast b.den_nz
  rw [qadd, Rat.mkRat_eq_div]
  push_cast
  conv_rhs => rw [← Rat.num_div_den a, ← Rat.num_div_den b]
  rw [div_add_div _ _ ha hb]
  ring

theorem qneg_eq (a : ℚ) : qneg a = -a := by
  rw [qneg, Rat.mkRat_eq_div]
  push_cast
  conv_rhs => rw [← Rat.num_div_den a]
  rw [neg_div]

theorem qsub_eq (a b : ℚ) : qsub a b = a - b := by
  rw [qsub, qadd_eq, qneg_eq, sub_eq_add_neg]

theorem qmul_eq (a b : ℚ) : qmul a b = a * b := by
  rw [qmul, Rat.mkRat_eq_div]
  push_cast
  conv_rhs => rw [← Rat.num_div_den a, ← Rat.num_div_den b]
  rw [div_mul_div_comm]

theorem qabs_eq (a : ℚ) : qabs a = |a| := by
  rw [qabs, Rat.mkRat_eq_div]
  conv_rhs => rw [← Rat.num_div_den a]
  rw [abs_div]
  congr 1
  · push_cast [Int.cast_natAbs]
    rfl
  · exact (abs_of_pos (by exact_mod_cast a.pos)).symm

theorem qOfInt_eq (n : ℤ) : qOfInt n = (n : ℚ) := by
  rw [qOfInt, Rat.mkRat_one]

theorem qmax_eq (a b : ℚ) : qmax a b = max a b := by
  rw [qmax]
  rcases lt_or_ge a b with h | h
  · rw [if_pos h, max_eq_right h.le]
  · rw [if_neg (not_lt.mpr h), max_eq_left h]

theorem num_neg_iff (q : ℚ) : q.num < 0 ↔ q < 0 := Rat.num_neg

/-! ## Scenario checks (spec section 8) -/

theorem scenario_01 : normalize_amount (some (.str "$1,200.50")) = "1200.50" := by decide
theorem scenario_02 : normalize_amount (some (.str "100")) = "100.00" := by decide
theorem scenario_03 : normalize_amount (some (.str "nan")) = "nan" := by decide
theorem scenario_04 : normalize_amount (some (.str "1e3")) = "1000.00" := by decide
theorem scenario_05 : normalize_amount (some (.str "abc")) = "" := by decide
theorem scenario_06 : normalize_amount (some (.str "-0.004")) = "-0.00" := by decide
theorem scenario_07 : parse_float (some (.str "1_0")) = some (.finite 10) := by decide
theorem scenario_08 : parse_float (some (.str "_1")) = none := by decide
theorem scenario_09 : parse_float (some (.str "INF")) = some (.infinite false) := by decide
theorem scenario_10 : normalize_text id (some (.str "  ACME—x ")) = "acme-x" := by decide

theorem scenario_11 : fmtISO "2024-01-06" = some ⟨2024, 1, 6⟩ := by decide
theorem scenario_12 : pyWeekday ⟨2024, 1, 6⟩ = 5 := by decide
theorem scenario_13 : pyWeekday ⟨2024, 1, 8⟩ = 0 := by decide
theorem scenario_14 : fmtISO "2024-02-30" = none := by decide
theorem scenario_15 : fmtUS "1/6/2024" = some ⟨2024, 1, 6⟩ := by decide
theorem scenario_16 : fmtUS "2024/01/06" = none := by decide
theorem scenario_17 : fmtISOSlash "2024/01/06" = some ⟨2024, 1, 6⟩ := by decide
theorem scenario_18 : firstParse defaultFmts "2024-01-06" = some ⟨2024, 1, 6⟩ := by decide
theorem scenario_19 : flag_weekends [[("expense_date", .str "2024-01-06")]] "expense_date" defaultFmts =
    [[("expense_date", .str "2024-01-06"), ("_reason", .str "weekend")]] := by decide
theorem scenario_20 : flag_weekends [[("expense_date", .str "2024-01-08")]] "expense_date" defaultFmts = [] := by
  decide
theorem scenario_21 : flag_threshold [[("amount_usd", .str "5000.00")]] "amount_usd" 5000 200 =
    [[("amount_usd", .str "5000.00"), ("_reason", .str "near_limit")]] := by decide
theorem scenario_22 : flag_threshold [[("amount_usd", .str "5000.01")]] "amount_usd" 5000 200 =
    [[("amount_usd", .str "5000.01"), ("_reason", .str "over_limit")]] := by decide
theorem scenario_23 :
    flag_discrepancies [[("amount_usd", .str "300.00"), ("paid_amount_usd", .str "305.50")]]
      "amount_usd" "paid_amount_usd" =
    [[("amount_usd", .str "300.00"), ("paid_amount_usd", .str "305.50"),
      ("_reason", .str "discrepancy"), ("_details", .str "Diff: $5.50")]] := by decide
theorem scenario_24 :
    flag_discrepancies [[("amount_usd", .str "300.00"), ("paid_amount_usd", .str "300.005")]]
      "amount_usd" "paid_amount_usd" = [] := by decide
theorem scenario_25 :
    flag_suspicious_keywords id [[("merchant", .str "Cashier Ltd")]] ["merchant", "category"] =
    [[("merchant", .str "Cashier Ltd"), ("_reason", .str "suspicious_keyword"),
      ("_details", .str "cash (in merchant)")]] := by decide

theorem scenario_26 : leadingDigit [("amount_usd", .str "1999")] "amount_usd" = some 1 := by decide
theorem scenario_27 : leadingDigit [("amount_usd", .str "$0.99")] "amount_usd" = some 9 := by decide
theorem scenario_28 : leadingDigit [("amount_usd", .str "$.--")] "amount_usd" = none := by decide
theorem scenario_29 :
    calculate_benford_stats (fun _ => 0) [] "amount_usd" = .error "No valid amounts found" := by
  decide
theorem scenario_30 :
    (calculate_benford_stats (fun _ => 0) [[("amount_usd", .str "1999")]] "amount_usd") =
    .ok { total_analyzed := 1,
          stats := [⟨1, 1, 100, 0, 100⟩, ⟨2, 0, 0, 0, 0⟩, ⟨3, 0, 0, 0, 0⟩, ⟨4, 0, 0, 0, 0⟩,
                    ⟨5, 0, 0, 0, 0⟩, ⟨6, 0, 0, 0, 0⟩, ⟨7, 0, 0, 0, 0⟩, ⟨8, 0, 0, 0, 0⟩,
                    ⟨9, 0, 0, 0, 0⟩],
          is_suspicious := true, max_deviation_pct := 100 } := by decide
theorem scenario_31 :
    find_duplicate_invoices id
      [[("merchant", .str "Acme"), ("invoice_no", .str "INV-1"), ("amount_usd", .str "100.00")],
       [("merchant", .str "ACME"), ("invoice_no", .str "inv-1"), ("amount_usd", .str "$100.00")]]
      "merchant" "invoice_no" "amount_usd" true =
    [[("merchant", .str "Acme"), ("invoice_no", .str "INV-1"), ("amount_usd", .str "100.00"),
      ("_reason", .str "duplicate"), ("_dup_count", .int 2)],
     [("merchant", .str "ACME"), ("invoice_no", .str "inv-1"), ("amount_usd", .str "$100.00"),
      ("_reason", .str "duplicate"), ("_dup_count", .int 2)]] := by decide
theorem scenario_32 :
    find_duplicate_invoices id
      [[("invoice_no", .str "a"), ("amount_usd", .str "1"), ("note", .str "x")]]
      "merchant" "invoice_no" "amount_usd" true = [] := by decide

/-! ## The emit-loop shape -/

theorem loopEmit_aux (g : Record → Option Record) :
    ∀ (l acc : List Record),
      List.foldl (fun acc r => match g r with | some x => acc ++ [x] | none => acc) acc l
        = acc ++ l.filterMap g
  | [], acc => by simp
  | r :: rs, acc => by
    simp only [List.foldl_cons, List.filterMap_cons]
    cases h : g r with
    | none => rw [loopEmit_aux g rs acc]
    | some x => rw [loopEmit_aux g rs (acc ++ [x])]; simp

theorem loopEmit_eq_filterMap (g : Record → Option Record) (rows : List Record) :
    loopEmit g rows = rows.filterMap g := by
  rw [loopEmit, loopEmit_aux g rows []]
  simp

theorem mem_loopEmit (g : Record → Option Record) (rows : List Record) (f : Record) :
    f ∈ loopEmit g rows ↔ ∃ r ∈ rows, g r = some f := by
  rw [loopEmit_eq_filterMap]
  exact List.mem_filterMap

theorem filterMap_ite (p : Record → Bool) (h : Record → Record) (l : List Record) :
    l.filterMap (fun r => if p r then some (h r) else none) = (l.filter p).map h := by
  induction l with
  | nil => rfl
  | cons a t ih =>
    by_cases hp : p a <;> simp [List.filterMap_cons, List.filter_cons, hp, ih]

/-! ## Record lookup and update -/

theorem get?_cons (a : String × Value) (t : Record) (k : String) :
    Record.get? (a :: t) k = if a.1 == k then some a.2 else Record.get? t k := by
  rw [Record.get?, Record.get?, List.find?_cons]
  cases h : a.1 == k <;> simp [h]

theorem get?_map_set (k k' : String) (v : Value) (hne : k' ≠ k) (r : Record) :
    Record.get? (r.map (fun p => if p.1 == k then (k, v) else p)) k' = Record.get? r k' := by
  have hkk' : (k == k') = false := by
    simp only [beq_eq_false_iff_ne, ne_eq]
    exact fun hk => hne hk.symm
  induction r with
  | nil => rfl
  | cons a t ih =>
    rw [List.map_cons, get?_cons, get?_cons]
    cases ha : a.1 == k with
    | true =>
      have ha' : a.1 = k := by simpa using ha
      have h2 : (a.1 == k') = false := by rw [ha']; exact hkk'
      simp only [ha, if_true, h2, hkk', Bool.false_eq_true, if_false, ih]
    | false =>
      simp only [ha, Bool.false_eq_true, if_false, ih]

theorem get?_set_same (r : Record) (k : String) (v : Value) :
    (Record.set r k v).get? k = some v := by
  rw [Record.set]
  split
  next h =>
    revert h
    induction r with
    | nil => intro h; simp at h
    | cons a t ih =>
      intro h
      rw [List.map_cons, get?_cons]
      cases ha : a.1 == k with
      | true => simp [ha]
      | false =>
        have h' : t.any (fun p => p.1 == k) = true := by
          rcases List.any_eq_true.mp h with ⟨x, hx, hpx⟩
          cases hx with
          | head =>
            rw [ha] at hpx
            exact (Bool.false_ne_true hpx).elim
          | tail _ hxt => exact List.any_eq_true.mpr ⟨x, hxt, hpx⟩
        simpa [ha] using ih h'
  next h =>
    revert h
    induction r with
    | nil => intro _; simp [get?_cons]
    | cons a t ih =>
      intro h
      have ha : (a.1 == k) = false := by
        cases hb : a.1 == k with
        | true => exact absurd (List.any_eq_true.mpr ⟨a, List.mem_cons_self a t, hb⟩) h
        | false => rfl
      have h' : ¬ t.any (fun p => p.1 == k) = true := by
        intro hc
        rcases List.any_eq_true.mp hc with ⟨x, hx, hpx⟩
        exact h (List.any_eq_true.mpr ⟨x, List.mem_cons_of_mem a hx, hpx⟩)
      rw [List.cons_append, get?_cons]
      simpa [ha] using ih h'

theorem get?_set_other (r : Record) (k k' : String) (v : Value) (hne : k' ≠ k) :
    (Record.set r k v).get? k' = r.get? k' := by
  rw [Record.set]
  split
  next => exact get?_map_set k k' v hne r
  next h =>
    clear h
    induction r with
    | nil =>
      have h1 : ((k, v).1 == k') = false := by
        simp only [beq_eq_false_iff_ne, ne_eq]
        exact fun hk => hne hk.symm
      simp [get?_cons, h1, Record.get?]
    | cons a t ih =>
      rw [List.cons_append, get?_cons, get?_cons]
      cases ha : a.1 == k' with
      | true => simp [ha]
      | false => simpa [ha] using ih

/-! ## Claim C7: the weekend flagger is an order-preserving filter -/

/-- C7: for every input sequence, the weekend flagger's output is exactly the
subsequence, in input order, of the records whose stripped date cell is
non-blank and parses under the first configured format that succeeds with a
Saturday/Sunday weekday (`weekday() ≥ 5`), each annotated with
`_reason = "weekend"`; blank or unparseable dates are silently dropped. -/
theorem claim_C7_weekend_filter (rows : List Record) (date_col : String)
    (fmts : List (String → Option DateT)) :
    flag_weekends rows date_col fmts
      = (rows.filter (weekendP date_col fmts)).map
          (fun r => r.set "_reason" (.str "weekend")) := by
  rw [flag_weekends, loopEmit_eq_filterMap, ← filterMap_ite]
  congr 1
  funext r
  rw [weekendP]
  cases hs : pyStrip (pyOrEmpty (r.get? date_col)) == "" with
  | true => simp [hs]
  | false =>
    cases hp : firstParse fmts (pyStrip (pyOrEmpty (r.get? date_col))) with
    | none => simp [hs, hp]
    | some dt =>
      by_cases hw : 5 ≤ pyWeekday dt
      · simp [hs, hp, hw]
      · simp [hs, hp, hw]

/-! ## Claim C3: threshold classification -/

theorem mem_flag_threshold (rows : List Record) (c : String) (L B : ℚ) (f : Record) :
    f ∈ flag_threshold rows c L B ↔
      ∃ r ∈ rows, ∃ a, parse_float (r.get? c) = some a ∧
        ((a.gtv L = true ∧ f = r.set "_reason" (.str "over_limit")) ∨
         (a.gtv L = false ∧ qltF (L - B) a = true ∧ a.lev L = true ∧
          f = r.set "_reason" (.str "near_limit"))) := by
  rw [flag_threshold, mem_loopEmit]
  constructor
  · rintro ⟨r, hr, hg⟩
    refine ⟨r, hr, ?_⟩
    cases hp : parse_float (r.get? c) with
    | none => rw [hp] at hg; exact absurd hg (by simp)
    | some a =>
      rw [hp] at hg
      refine ⟨a, rfl, ?_⟩
      cases hgt : a.gtv L with
      | true =>
        rw [← qsub_eq]
        simp only [hgt, if_true] at hg
        simp only [Option.some.injEq] at hg
        exact Or.inl ⟨rfl, hg.symm⟩
      | false =>
        rw [← qsub_eq]
        cases hband : qltF (qsub L B) a && a.lev L with
        | true =>
          simp only [hgt, Bool.false_eq_true, if_false, hband, if_true] at hg
          simp only [Option.some.injEq] at hg
          rcases (by simpa using hband : qltF (qsub L B) a = true ∧ a.lev L = true) with ⟨h1, h2⟩
          exact Or.inr ⟨rfl, h1, h2, hg.symm⟩
        | false =>
          simp only [hgt, Bool.false_eq_true, if_false, hband] at hg
          exact Option.noConfusion hg
  · rintro ⟨r, hr, a, hp, hcase⟩
    refine ⟨r, hr, ?_⟩
    rw [hp]
    rcases hcase with ⟨hgt, hf⟩ | ⟨hgt, h1, h2, hf⟩
    · simp only [hgt, if_true, hf]
    · rw [← qsub_eq] at h1
      simp only [hgt, Bool.false_eq_true, if_false, h1, h2, Bool.and_self, if_true, hf]

/-- C3: a parsed amount is flagged `over_limit` exactly when it compares
strictly greater than `limit`, `near_limit` exactly when it lies in
`(limit − buffer, limit]` (and not above the limit), and is skipped
otherwise; the two reasons exclude each other, and an amount equal to the
limit lands in the near band whenever `buffer > 0`. Unparseable amounts
produce nothing. -/
theorem claim_C3_threshold (rows : List Record) (c : String) (L B : ℚ) :
    (∀ f, f ∈ flag_threshold rows c L B ↔
      ∃ r ∈ rows, ∃ a, parse_float (r.get? c) = some a ∧
        ((a.gtv L = true ∧ f = r.set "_reason" (.str "over_limit")) ∨
         (a.gtv L = false ∧ qltF (L - B) a = true ∧ a.lev L = true ∧
          f = r.set "_reason" (.str "near_limit"))))
    ∧ (∀ a : PyFloat, ¬(a.gtv L = true ∧ a.lev L = true))
    ∧ (0 < B → PyFloat.gtv (.finite L) L = false ∧ qltF (L - B) (.finite L) = true ∧
        PyFloat.lev (.finite L) L = true) := by
  refine ⟨mem_flag_threshold rows c L B, ?_, ?_⟩
  · intro a ⟨h1, h2⟩
    cases a with
    | finite q =>
      rw [PyFloat.gtv, decide_eq_true_iff] at h1
      rw [PyFloat.lev, decide_eq_true_iff] at h2
      exact absurd h1 (not_lt.mpr h2)
    | infinite n =>
      rw [PyFloat.gtv] at h1
      rw [PyFloat.lev] at h2
      rw [h2] at h1
      exact Bool.false_ne_true h1
    | nan => exact Bool.false_ne_true h1
  · intro hB
    refine ⟨?_, ?_, ?_⟩
    · rw [PyFloat.gtv, decide_eq_false_iff_not]
      exact lt_irrefl L
    · rw [qltF, decide_eq_true_iff]
      exact sub_lt_self L hB
    · rw [PyFloat.lev, decide_eq_true_iff]

/-! ## Claim C8: discrepancy flagging -/

theorem mkRat_one_hundred : mkRat 1 100 = 1 / 100 := by
  rw [Rat.mkRat_eq_div]
  norm_num

/-- C8: a row is flagged exactly when both amount cells parse and the
absolute difference strictly exceeds 0.01; the finding carries
`_reason = "discrepancy"` and `_details = "Diff: $"` followed by the gap
formatted to two decimals; differences within the epsilon produce
nothing. -/
theorem claim_C8_discrepancy (rows : List Record) (ic pc : String) :
    ∀ f, f ∈ flag_discrepancies rows ic pc ↔
      ∃ r ∈ rows, ∃ a b, parse_float (r.get? ic) = some a ∧ parse_float (r.get? pc) = some b ∧
        ((a.sub b).pyAbs).gtv (1 / 100) = true ∧
        f = (r.set "_reason" (.str "discrepancy")).set "_details"
              (.str ("Diff: $" ++ ((a.sub b).pyAbs).fmt2)) := by
  intro f
  rw [flag_discrepancies, mem_loopEmit]
  constructor
  · rintro ⟨r, hr, hg⟩
    refine ⟨r, hr, ?_⟩
    cases hpi : parse_float (r.get? ic) with
    | none => rw [hpi] at hg; exact absurd hg (by simp)
    | some a =>
      cases hpp : parse_float (r.get? pc) with
      | none => rw [hpi, hpp] at hg; exact absurd hg (by simp)
      | some b =>
        rw [hpi, hpp] at hg
        refine ⟨a, b, rfl, rfl, ?_⟩
        cases hd : ((a.sub b).pyAbs).gtv (mkRat 1 100) with
        | true =>
          rw [← mkRat_one_hundred]
          simp only [hd, if_true, Option.some.injEq] at hg
          exact ⟨hd, hg.symm⟩
        | false =>
          simp only [hd, Bool.false_eq_true, if_false] at hg
          exact Option.noConfusion hg
  · rintro ⟨r, hr, a, b, hpi, hpp, hd, hf⟩
    refine ⟨r, hr, ?_⟩
    rw [hpi, hpp]
    rw [← mkRat_one_hundred] at hd
    simp only [hd, if_true, hf]

/-! ## Benford analyzer: characterization -/

theorem char_toNat_inj {a b : Char} (h : a.toNat = b.toNat) : a = b := by
  apply Char.eq_of_val_eq
  apply UInt32.eq_of_toBitVec_eq
  apply BitVec.eq_of_toNat_eq
  exact h

theorem filter_head?_eq_find? {α : Type} (p : α → Bool) (l : List α) :
    (l.filter p).head? = l.find? p := by
  induction l with
  | nil => rfl
  | cons a t ih => cases h : p a <;> simp [List.filter_cons, List.find?_cons, h, ih]

theorem leadingDigit_eq_find? (r : Record) (c : String) :
    leadingDigit r c =
      ((((r.get? c).getD (.str "")).pyStr).data.find? (fun ch => pyDigit ch && ch != '0')).map
        (fun ch => ch.toNat - 48) := by
  rw [leadingDigit, filter_head?_eq_find?]

theorem leadingDigit_isSome_iff (r : Record) (c : String) :
    (leadingDigit r c).isSome = true ↔
      ∃ ch ∈ (((r.get? c).getD (.str "")).pyStr).data, pyDigit ch = true ∧ ch ≠ '0' := by
  rw [leadingDigit_eq_find?]
  simp only [Option.isSome_map', List.find?_isSome, Bool.and_eq_true, bne_iff_ne, ne_eq]

theorem leadingDigit_range (r : Record) (c : String) (d : Nat)
    (h : leadingDigit r c = some d) : 1 ≤ d ∧ d ≤ 9 := by
  rw [leadingDigit] at h
  rcases Option.map_eq_some'.mp h with ⟨ch, hch, hd⟩
  have hmem : ch ∈ (((r.get? c).getD (.str "")).pyStr).data.filter
      (fun ch => pyDigit ch && ch != '0') := List.mem_of_mem_head? (by rw [hch]; rfl)
  have hp := (List.mem_filter.mp hmem).2
  rcases Bool.and_eq_true _ _ ▸ hp with ⟨hp1, hp2⟩
  have hb : 48 ≤ ch.toNat ∧ ch.toNat ≤ 57 := by simpa [pyDigit] using hp1
  have hz : ch.toNat ≠ 48 := by
    intro hc
    have : ch = '0' := char_toNat_inj (by simpa using hc)
    rw [this] at hp2
    simp at hp2
  omega

theorem benford_fold (c : String) :
    ∀ (rows : List Record) (c0 : Nat → Nat) (t0 : Nat),
      rows.foldl (fun (acc : (Nat → Nat) × Nat) r =>
        match leadingDigit r c with
        | some d => (fun x => if x = d then acc.1 x + 1 else acc.1 x, acc.2 + 1)
        | none => acc) (c0, t0)
      = (fun x => c0 x + (benfordSamples rows c).count x,
         t0 + (benfordSamples rows c).length)
  | [], c0, t0 => by simp [benfordSamples]
  | r :: rs, c0, t0 => by
    rw [List.foldl_cons]
    cases h : leadingDigit r c with
    | none =>
      rw [benford_fold c rs c0 t0]
      simp [benfordSamples, List.filterMap_cons, h]
    | some d =>
      rw [benford_fold c rs (fun x => if x = d then c0 x + 1 else c0 x) (t0 + 1)]
      simp only [benfordSamples, List.filterMap_cons, h]
      refine Prod.ext ?_ ?_
      · funext x
        by_cases hx : x = d
        · simp [List.count_cons, hx]
          omega
        · simp [List.count_cons, hx]
      · simp only [List.length_cons]
        omega

theorem benford_statsFold (probs : Nat → ℚ) (counts : Nat → Nat) (total : Nat) :
    ∀ (l : List Nat) (s : List DigitStat) (m : ℚ),
      l.foldl (fun (z : List DigitStat × ℚ) i =>
        let d := i + 1
        let actual_freq : ℚ := mkRat (counts d) total
        let diff := qabs (qsub actual_freq (probs d))
        (z.1 ++ [{ digit := d, actual_count := counts d,
                   actual_pct := roundQ2 (qmul actual_freq (qOfInt 100)),
                   expected_pct := roundQ2 (qmul (probs d) (qOfInt 100)),
                   diff_pct := roundQ2 (qmul diff (qOfInt 100)) }], qmax z.2 diff)) (s, m)
      = (s ++ l.map (fun i =>
          { digit := i + 1, actual_count := counts (i + 1),
            actual_pct := roundQ2 (qmul (mkRat (counts (i + 1)) total) (qOfInt 100)),
            expected_pct := roundQ2 (qmul (probs (i + 1)) (qOfInt 100)),
            diff_pct := roundQ2 (qmul (qabs (qsub (mkRat (counts (i + 1)) total)
              (probs (i + 1)))) (qOfInt 100)) }),
         l.foldl (fun x i => qmax x (qabs (qsub (mkRat (counts (i + 1)) total)
           (probs (i + 1))))) m)
  | [], s, m => by simp
  | i :: t, s, m => by
    rw [List.foldl_cons, benford_statsFold probs counts total t]
    simp [List.foldl_cons]

theorem lt_foldl_qmax (G : Nat → ℚ) (cc : ℚ) :
    ∀ (l : List Nat) (a : ℚ),
      cc < l.foldl (fun m i => qmax m (G i)) a ↔ cc < a ∨ ∃ i ∈ l, cc < G i
  | [], a => by simp
  | i :: t, a => by
    rw [List.foldl_cons, lt_foldl_qmax G cc t (qmax a (G i))]
    rw [qmax_eq, lt_max_iff]
    constructor
    · rintro ((h | h) | ⟨j, hj, hGj⟩)
      · exact Or.inl h
      · exact Or.inr ⟨i, List.mem_cons_self i t, h⟩
      · exact Or.inr ⟨j, List.mem_cons_of_mem i hj, hGj⟩
    · rintro (h | ⟨j, hj, hGj⟩)
      · exact Or.inl (Or.inl h)
      · cases hj with
        | head => exact Or.inl (Or.inr hGj)
        | tail _ hjt => exact Or.inr ⟨j, hjt, hGj⟩

theorem count_sum_length :
    ∀ (l : List Nat), (∀ x ∈ l, x ∈ Finset.Icc 1 9) →
      (∑ d in Finset.Icc 1 9, l.count d) = l.length
  | [], _ => by simp
  | a :: t, h => by
    have ha := h a (List.mem_cons_self a t)
    have ht := count_sum_length t (fun x hx => h x (List.mem_cons_of_mem a hx))
    simp only [List.count_cons, List.length_cons]
    rw [Finset.sum_add_distrib, ht]
    congr 1
    rw [show (∑ d in Finset.Icc 1 9, if a == d then 1 else 0)
        = ∑ d in Finset.Icc 1 9, if d = a then 1 else 0 by
      refine Finset.sum_congr rfl fun d _ => ?_
      by_cases hd : a = d
      · subst hd; simp
      · rw [if_neg (by simpa using hd), if_neg (fun hc => hd hc.symm)]]
    rw [Finset.sum_ite_eq' (Finset.Icc 1 9) a (fun _ => 1)]
    simp [ha]

theorem benford_ok (probs : Nat → ℚ) (rows : List Record) (c : String)
    (h : (benfordSamples rows c).length ≠ 0) :
    calculate_benford_stats probs rows c = .ok {
      total_analyzed := (benfordSamples rows c).length,
      stats := (List.range 9).map (benfordStat probs rows c),
      is_suspicious := decide (mkRat 1 20 < benfordMaxDev probs rows c),
      max_deviation_pct := roundQ2 (qmul (benfordMaxDev probs rows c) (qOfInt 100)) } := by
  have hfold := benford_fold c rows (fun _ => 0) 0
  have hsf := benford_statsFold probs (fun x => (benfordSamples rows c).count x)
      ((benfordSamples rows c).length) (List.range 9) [] 0
  simp only [calculate_benford_stats, hfold, Nat.zero_add]
  rw [if_neg h]
  simp only [hsf]
  simp [benfordStat, benfordDiff, benfordMaxDev, digitCount]

theorem benford_error (probs : Nat → ℚ) (rows : List Record) (c : String)
    (h : benfordSamples rows c = []) :
    calculate_benford_stats probs rows c = .error "No valid amounts found" := by
  have hfold := benford_fold c rows (fun _ => 0) 0
  simp only [calculate_benford_stats, hfold, Nat.zero_add, h, List.length_nil]
  rfl

theorem mkRat_one_twenty : mkRat 1 20 = 1 / 20 := by
  rw [Rat.mkRat_eq_div]
  norm_num

theorem benfordDiff_eq (probs : Nat → ℚ) (rows : List Record) (c : String) (d : Nat) :
    benfordDiff probs rows c d
      = |(digitCount rows c d : ℚ) / ((benfordSamples rows c).length : ℚ) - probs d| := by
  rw [benfordDiff, qabs_eq, qsub_eq, Rat.mkRat_eq_div]
  push_cast
  rfl

/-- C5: the Benford analyzer returns the explicit error value exactly when no
row yields a leading digit, and otherwise returns a full report — the two
outcomes are distinct constructors the caller can test. -/
theorem claim_C5_benford_error_iff (probs : Nat → ℚ) (rows : List Record) (c : String) :
    (calculate_benford_stats probs rows c = .error "No valid amounts found" ↔
      benfordSamples rows c = [])
    ∧ (benfordSamples rows c ≠ [] →
        ∃ rep, calculate_benford_stats probs rows c = .ok rep) := by
  constructor
  · constructor
    · intro he
      by_contra hne
      have hlen : (benfordSamples rows c).length ≠ 0 := by
        simpa [List.length_eq_zero] using hne
      rw [benford_ok probs rows c hlen] at he
      exact BenfordResult.noConfusion he
    · intro hnil
      exact benford_error probs rows c hnil
  · intro hne
    have hlen : (benfordSamples rows c).length ≠ 0 := by
      simpa [List.length_eq_zero] using hne
    exact ⟨_, benford_ok probs rows c hlen⟩

/-- C4: with at least one valid sample the analyzer returns a report whose
total is the sample size; a row contributes exactly when its amount text
contains a nonzero digit character, contributing the first one in scan
order; the per-digit counts sum to the total; and the suspicion flag is
set exactly when some digit's absolute deviation from the expected table
exceeds 0.05. -/
theorem claim_C4_benford_report (probs : Nat → ℚ) (rows : List Record) (c : String)
    (h : benfordSamples rows c ≠ []) :
    ∃ rep, calculate_benford_stats probs rows c = .ok rep ∧
      rep.total_analyzed = (benfordSamples rows c).length ∧
      rep.stats.map (fun st => st.actual_count)
        = (List.range 9).map (fun i => digitCount rows c (i + 1)) ∧
      (∑ d in Finset.Icc 1 9, digitCount rows c d) = rep.total_analyzed ∧
      (rep.is_suspicious = true ↔ ∃ d ∈ Finset.Icc 1 9,
        1 / 20 < |(digitCount rows c d : ℚ) / ((benfordSamples rows c).length : ℚ) - probs d|) ∧
      (∀ r', leadingDigit r' c
        = ((((r'.get? c).getD (.str "")).pyStr).data.find? (fun ch => pyDigit ch && ch != '0')).map
            (fun ch => ch.toNat - 48)) ∧
      (∀ r', (leadingDigit r' c).isSome = true ↔
        ∃ ch ∈ (((r'.get? c).getD (.str "")).pyStr).data, pyDigit ch = true ∧ ch ≠ '0') := by
  have hlen : (benfordSamples rows c).length ≠ 0 := by simpa [List.length_eq_zero] using h
  refine ⟨_, benford_ok probs rows c hlen, rfl, ?_, ?_, ?_,
    fun r' => leadingDigit_eq_find? r' c, fun r' => leadingDigit_isSome_iff r' c⟩
  · simp [benfordStat, List.map_map, Function.comp]
  · exact count_sum_length (benfordSamples rows c) (fun x hx => by
      rcases List.mem_filterMap.mp hx with ⟨r', _, hld⟩
      have := leadingDigit_range r' c x hld
      exact Finset.mem_Icc.mpr this)
  · show decide (mkRat 1 20 < benfordMaxDev probs rows c) = true ↔ _
    rw [decide_eq_true_iff, benfordMaxDev, lt_foldl_qmax]
    have h20 : ¬ (mkRat 1 20 < (0 : ℚ)) := by rw [mkRat_one_twenty]; norm_num
    constructor
    · rintro (hc | ⟨i, hi, hlt⟩)
      · exact absurd hc h20
      · refine ⟨i + 1, Finset.mem_Icc.mpr ⟨by omega, by
          have := List.mem_range.mp hi; omega⟩, ?_⟩
        rw [← benfordDiff_eq, ← mkRat_one_twenty]
        exact hlt
    · rintro ⟨d, hd, hlt⟩
      rcases Finset.mem_Icc.mp hd with ⟨hd1, hd9⟩
      refine Or.inr ⟨d - 1, List.mem_range.mpr (by omega), ?_⟩
      rw [show d - 1 + 1 = d by omega, ← benfordDiff_eq, ← mkRat_one_twenty] at *
      exact hlt

/-! ## The sort order: totality and transitivity -/

theorem charsCmp_swap : ∀ (a b : List Char), charsCmp b a = (charsCmp a b).swap
  | [], [] => rfl
  | [], _ :: _ => rfl
  | _ :: _, [] => rfl
  | a :: as, b :: bs => by
    by_cases h1 : a.toNat < b.toNat
    · have h2 : ¬ b.toNat < a.toNat := by omega
      simp [charsCmp, h1, h2, Ordering.swap]
    · by_cases h2 : b.toNat < a.toNat
      · simp [charsCmp, h1, h2, Ordering.swap]
      · simp [charsCmp, h1, h2, charsCmp_swap as bs]

theorem charsCmp_eq_iff : ∀ (a b : List Char), charsCmp a b = .eq ↔ a = b
  | [], [] => by simp [charsCmp]
  | [], _ :: _ => by simp [charsCmp]
  | _ :: _, [] => by simp [charsCmp]
  | a :: as, b :: bs => by
    by_cases h1 : a.toNat < b.toNat
    · simp only [charsCmp, if_pos h1]
      constructor
      · intro hc; exact absurd hc (by decide)
      · intro hc
        cases hc
        exact absurd h1 (lt_irrefl _)
    · by_cases h2 : b.toNat < a.toNat
      · simp only [charsCmp, if_neg h1, if_pos h2]
        constructor
        · intro hc; exact absurd hc (by decide)
        · intro hc
          cases hc
          exact absurd h2 (lt_irrefl _)
      · have hab : a = b := char_toNat_inj (by omega)
        simp [charsCmp, h1, h2, hab, charsCmp_eq_iff as bs]

theorem charsCmp_lt_trans : ∀ (a b c : List Char),
    charsCmp a b = .lt → charsCmp b c = .lt → charsCmp a c = .lt
  | a, [], _ => by
    intro h1 _
    cases a <;> simp [charsCmp] at h1
  | a, _ :: _, [] => by
    intro _ h2
    simp [charsCmp] at h2
  | [], _ :: _, _ :: _ => by
    intro _ _
    simp [charsCmp]
  | x :: xs, y :: ys, z :: zs => by
    intro h1 h2
    simp only [charsCmp] at h1 h2 ⊢
    rcases Nat.lt_trichotomy x.toNat y.toNat with hxy | hxy | hxy
    · rcases Nat.lt_trichotomy y.toNat z.toNat with hyz | hyz | hyz
      · rw [if_pos (by omega)]
      · rw [if_pos (by omega)]
      · rw [if_neg (by omega), if_pos hyz] at h2
        exact absurd h2 (by decide)
    · rcases Nat.lt_trichotomy y.toNat z.toNat with hyz | hyz | hyz
      · rw [if_pos (by omega)]
      · rw [if_neg (by omega), if_neg (by omega)] at h1
        rw [if_neg (by omega), if_neg (by omega)] at h2
        rw [if_neg (by omega), if_neg (by omega)]
        exact charsCmp_lt_trans xs ys zs h1 h2
      · rw [if_neg (by omega), if_pos hyz] at h2
        exact absurd h2 (by decide)
    · rw [if_neg (by omega), if_pos hxy] at h1
      exact absurd h1 (by decide)

theorem strCmp_lt_trans (a b c : String) :
    strCmp a b = .lt → strCmp b c = .lt → strCmp a c = .lt :=
  charsCmp_lt_trans a.data b.data c.data

theorem strCmp_eq_iff (a b : String) : strCmp a b = .eq ↔ a = b := by
  rw [strCmp, charsCmp_eq_iff]
  constructor
  · intro h
    cases a with
    | mk da =>
      cases b with
      | mk db =>
        have hd : da = db := by simpa using h
        rw [hd]
  · intro h
    rw [h]

theorem strCmp_swap (a b : String) : strCmp b a = (strCmp a b).swap :=
  charsCmp_swap a.data b.data

theorem strCmp_ne_gt (a b : String) : strCmp a b ≠ .gt ↔ (strCmp a b = .lt ∨ a = b) := by
  rw [← strCmp_eq_iff]
  cases h : strCmp a b <;> simp

theorem strLe_trans {a b c : String} (h1 : strCmp a b ≠ .gt) (h2 : strCmp b c ≠ .gt) :
    strCmp a c ≠ .gt := by
  rw [strCmp_ne_gt] at h1 h2 ⊢
  rcases h1 with h1 | h1
  · rcases h2 with h2 | h2
    · exact Or.inl (strCmp_lt_trans a b c h1 h2)
    · rw [← h2]
      exact Or.inl h1
  · rw [h1]
    exact h2

theorem key3Le_iff (a b : String × String × String) :
    key3Le a b = true ↔ key3Cmp a b ≠ .gt := by
  cases h : key3Cmp a b <;> simp [key3Le, h]

theorem key3Cmp_swap (a b : String × String × String) :
    key3Cmp b a = (key3Cmp a b).swap := by
  rw [key3Cmp, key3Cmp, strCmp_swap a.1 b.1, strCmp_swap a.2.1 b.2.1, strCmp_swap a.2.2 b.2.2]
  cases strCmp a.1 b.1 <;> cases strCmp a.2.1 b.2.1 <;> cases strCmp a.2.2 b.2.2 <;> rfl

theorem key3Le_total (a b : String × String × String) :
    key3Le a b = true ∨ key3Le b a = true := by
  rw [key3Le_iff, key3Le_iff, key3Cmp_swap a b]
  cases key3Cmp a b <;> decide

theorem key3Le_trans : ∀ (a b c : String × String × String),
    key3Le a b = true → key3Le b c = true → key3Le a c = true := by
  rintro ⟨a1, a2, a3⟩ ⟨b1, b2, b3⟩ ⟨c1, c2, c3⟩ h1 h2
  rw [key3Le_iff] at h1 h2 ⊢
  simp only [key3Cmp] at h1 h2 ⊢
  rcases hab1 : strCmp a1 b1 with _ | _ | _ <;> rw [hab1] at h1
  · rcases hbc1 : strCmp b1 c1 with _ | _ | _ <;> rw [hbc1] at h2
    · rw [strCmp_lt_trans a1 b1 c1 hab1 hbc1]
      exact fun hc => Ordering.noConfusion hc
    · have hb : b1 = c1 := (strCmp_eq_iff b1 c1).mp hbc1
      subst hb
      rw [hab1]
      exact fun hc => Ordering.noConfusion hc
    · exact absurd rfl h2
  · have hb : a1 = b1 := (strCmp_eq_iff a1 b1).mp hab1
    subst hb
    rcases hbc1 : strCmp a1 c1 with _ | _ | _ <;> rw [hbc1] at h2
    · exact fun hc => Ordering.noConfusion hc
    · rcases hab2 : strCmp a2 b2 with _ | _ | _ <;> rw [hab2] at h1
      · rcases hbc2 : strCmp b2 c2 with _ | _ | _ <;> rw [hbc2] at h2
        · rw [strCmp_lt_trans a2 b2 c2 hab2 hbc2]
          exact fun hc => Ordering.noConfusion hc
        · have hb2 : b2 = c2 := (strCmp_eq_iff b2 c2).mp hbc2
          subst hb2
          rw [hab2]
          exact fun hc => Ordering.noConfusion hc
        · exact absurd rfl h2
      · have hb2 : a2 = b2 := (strCmp_eq_iff a2 b2).mp hab2
        subst hb2
        rcases hbc2 : strCmp a2 c2 with _ | _ | _ <;> rw [hbc2] at h2
        · exact fun hc => Ordering.noConfusion hc
        · exact strLe_trans h1 h2
        · exact absurd rfl h2
      · exact absurd rfl h1
    · exact absurd rfl h2
  · exact absurd rfl h1

/-! ## Bucket structure of the duplicate detector -/

theorem grp_append_one (keyf : Record → List String) (pre : List Record) (r : Record)
    (k : List String) :
    grp keyf (pre ++ [r]) k = grp keyf pre k ++ if keyf r = k then [r] else [] := by
  rw [grp, grp, List.filter_append]
  congr 1
  by_cases h : keyf r = k <;> simp [h]

theorem addToBucket_keys (k : List String) (r : Record) :
    ∀ bs : List (List String × List Record),
      (addToBucket k r bs).map Prod.fst
        = if k ∈ bs.map Prod.fst then bs.map Prod.fst else bs.map Prod.fst ++ [k]
  | [] => by simp [addToBucket]
  | (k', g) :: bs => by
    by_cases h : k' = k
    · simp [addToBucket, h]
    · have hne : ¬ k = k' := fun hc => h hc.symm
      rw [addToBucket, if_neg h, List.map_cons, List.map_cons, addToBucket_keys k r bs]
      by_cases hm : k ∈ bs.map Prod.fst
      · rw [if_pos hm, if_pos (by simp [hm])]
      · rw [if_neg hm, if_neg (by simp [hne, hm]), List.cons_append]

theorem mem_addToBucket (k : List String) (r : Record) :
    ∀ (bs : List (List String × List Record)), (bs.map Prod.fst).Nodup →
      ∀ p, p ∈ addToBucket k r bs ↔
        ((p.1 ≠ k ∧ p ∈ bs) ∨
         (∃ g, (k, g) ∈ bs ∧ p = (k, g ++ [r])) ∨
         (k ∉ bs.map Prod.fst ∧ p = (k, [r])))
  | [], _, p => by
    simp only [addToBucket, List.mem_singleton, List.not_mem_nil, List.map_nil, and_true,
      false_and, or_false, exists_and_left]
    constructor
    · intro hp
      right
      simp [hp]
    · rintro (⟨_, hc⟩ | h)
      · exact absurd hc (by simp)
      · simp at h
        simp [h]
  | (k', g) :: bs, hnd, p => by
    have hnd' : (bs.map Prod.fst).Nodup := (List.nodup_cons.mp (by simpa using hnd)).2
    have hk' : k' ∉ bs.map Prod.fst := (List.nodup_cons.mp (by simpa using hnd)).1
    by_cases h : k' = k
    · subst h
      rw [addToBucket, if_pos rfl]
      constructor
      · intro hp
        rcases List.mem_cons.mp hp with hp | hp
        · exact Or.inr (Or.inl ⟨g, List.mem_cons_self _ _, hp⟩)
        · have hp1 : p.1 ≠ k' := by
            intro hc
            apply hk'
            rw [← hc]
            exact List.mem_map.mpr ⟨p, hp, rfl⟩
          exact Or.inl ⟨hp1, List.mem_cons_of_mem _ hp⟩
      · rintro (⟨hp1, hp⟩ | ⟨g0, hg0, hp⟩ | ⟨hnm, hp⟩)
        · rcases List.mem_cons.mp hp with hp | hp
          · exact absurd (by rw [hp]) hp1
          · exact List.mem_cons_of_mem _ hp
        · rcases List.mem_cons.mp hg0 with hg0 | hg0
          · have : g0 = g := (Prod.mk.injEq _ _ _ _ ▸ hg0).2
            subst this
            rw [hp]
            exact List.mem_cons_self _ _
          · exact absurd (List.mem_map.mpr ⟨(k', g0), hg0, rfl⟩) hk'
        · exact absurd (by simp) hnm
    · rw [addToBucket, if_neg h]
      constructor
      · intro hp
        rcases List.mem_cons.mp hp with hp | hp
        · subst hp
          exact Or.inl ⟨fun hc => h hc, List.mem_cons_self _ _⟩
        · rcases (mem_addToBucket k r bs hnd' p).mp hp with ⟨hp1, hpm⟩ | ⟨g0, hg0, hpe⟩ | ⟨hnm, hpe⟩
          · exact Or.inl ⟨hp1, List.mem_cons_of_mem _ hpm⟩
          · exact Or.inr (Or.inl ⟨g0, List.mem_cons_of_mem _ hg0, hpe⟩)
          · refine Or.inr (Or.inr ⟨?_, hpe⟩)
            simp only [List.map_cons, List.mem_cons]
            rintro (hc | hc)
            · exact h hc.symm
            · exact hnm hc
      · rintro (⟨hp1, hpm⟩ | ⟨g0, hg0, hpe⟩ | ⟨hnm, hpe⟩)
        · rcases List.mem_cons.mp hpm with hpm | hpm
          · rw [hpm]
            exact List.mem_cons_self _ _
          · exact List.mem_cons_of_mem _
              ((mem_addToBucket k r bs hnd' p).mpr (Or.inl ⟨hp1, hpm⟩))
        · rcases List.mem_cons.mp hg0 with hg0 | hg0
          · exact absurd (Prod.mk.injEq _ _ _ _ ▸ hg0).1.symm h
          · exact List.mem_cons_of_mem _
              ((mem_addToBucket k r bs hnd' p).mpr (Or.inr (Or.inl ⟨g0, hg0, hpe⟩)))
        · have hnm' : k ∉ bs.map Prod.fst := fun hc => hnm (by simp [hc])
          exact List.mem_cons_of_mem _
            ((mem_addToBucket k r bs hnd' p).mpr (Or.inr (Or.inr ⟨hnm', hpe⟩)))

theorem addToBucket_flatten_perm (k : List String) (r : Record) :
    ∀ bs : List (List String × List Record),
      ((addToBucket k r bs).map Prod.snd).flatten.Perm ((bs.map Prod.snd).flatten ++ [r])
  | [] => by simp [addToBucket]
  | (k', g) :: bs => by
    by_cases h : k' = k
    · rw [addToBucket, if_pos h]
      simp only [List.map_cons, List.flatten_cons]
      rw [List.append_assoc g [r] ((bs.map Prod.snd).flatten),
        List.append_assoc g ((bs.map Prod.snd).flatten) [r]]
      exact List.Perm.append_left g List.perm_append_comm
    · rw [addToBucket, if_neg h]
      simp only [List.map_cons, List.flatten_cons]
      rw [List.append_assoc g ((bs.map Prod.snd).flatten) [r]]
      exact List.Perm.append_left g (addToBucket_flatten_perm k r bs)

theorem bucketsOf_flatten_perm (keyf : Record → List String) :
    ∀ (rows : List Record) (bs : List (List String × List Record)),
      ((bucketsOf keyf rows bs).map Prod.snd).flatten.Perm ((bs.map Prod.snd).flatten ++ rows)
  | [], bs => by simp [bucketsOf]
  | r :: rs, bs => by
    rw [bucketsOf]
    refine (bucketsOf_flatten_perm keyf rs _).trans ?_
    refine (List.Perm.append_right rs (addToBucket_flatten_perm (keyf r) r bs)).trans ?_
    rw [List.append_assoc]
    simp

theorem addToBucket_step (keyf : Record → List String) (r : Record) (pre : List Record)
    (bs : List (List String × List Record))
    (hnd : (bs.map Prod.fst).Nodup)
    (hgr : ∀ p ∈ bs, p.2 = grp keyf pre p.1 ∧ p.2 ≠ [])
    (hcov : ∀ r' ∈ pre, keyf r' ∈ bs.map Prod.fst) :
    ((addToBucket (keyf r) r bs).map Prod.fst).Nodup ∧
      (∀ p ∈ addToBucket (keyf r) r bs, p.2 = grp keyf (pre ++ [r]) p.1 ∧ p.2 ≠ []) ∧
      (∀ r' ∈ pre ++ [r], keyf r' ∈ (addToBucket (keyf r) r bs).map Prod.fst) := by
  have hkeys := addToBucket_keys (keyf r) r bs
  refine ⟨?_, ?_, ?_⟩
  · rw [hkeys]
    by_cases hm : keyf r ∈ bs.map Prod.fst
    · rw [if_pos hm]
      exact hnd
    · rw [if_neg hm]
      rw [List.nodup_append]
      exact ⟨hnd, List.nodup_singleton _, by simpa using hm⟩
  · intro p hp
    rcases (mem_addToBucket (keyf r) r bs hnd p).mp hp with ⟨hp1, hpm⟩ | ⟨g0, hg0, hpe⟩ | ⟨hnm, hpe⟩
    · rcases hgr p hpm with ⟨hg, hne⟩
      refine ⟨?_, hne⟩
      rw [grp_append_one, if_neg (fun hc => hp1 hc.symm), List.append_nil]
      exact hg
    · rcases hgr (keyf r, g0) hg0 with ⟨hg, _⟩
      rw [hpe]
      refine ⟨?_, by simp⟩
      simp only
      rw [grp_append_one, if_pos rfl]
      simp only at hg
      rw [hg]
    · rw [hpe]
      refine ⟨?_, by simp⟩
      simp only
      rw [grp_append_one, if_pos rfl]
      have hg : grp keyf pre (keyf r) = [] := by
        rw [grp, List.filter_eq_nil_iff]
        intro x hx hpx
        apply hnm
        have : keyf x = keyf r := by simpa using hpx
        rw [← this]
        exact hcov x hx
      rw [hg, List.nil_append]
  · intro r' hr'
    have hsub : ∀ x, x ∈ bs.map Prod.fst → x ∈ (addToBucket (keyf r) r bs).map Prod.fst := by
      intro x hx
      rw [hkeys]
      by_cases hm : keyf r ∈ bs.map Prod.fst
      · rw [if_pos hm]; exact hx
      · rw [if_neg hm]; exact List.mem_append_left _ hx
    rcases List.mem_append.mp hr' with hr' | hr'
    · exact hsub _ (hcov r' hr')
    · have : r' = r := by simpa using hr'
      subst this
      rw [hkeys]
      by_cases hm : keyf r' ∈ bs.map Prod.fst
      · rw [if_pos hm]; exact hm
      · rw [if_neg hm]; exact List.mem_append_right _ (by simp)

theorem bucketsOf_invariant (keyf : Record → List String) :
    ∀ (rows : List Record) (bs : List (List String × List Record)) (pre : List Record),
      (bs.map Prod.fst).Nodup →
      (∀ p ∈ bs, p.2 = grp keyf pre p.1 ∧ p.2 ≠ []) →
      (∀ r' ∈ pre, keyf r' ∈ bs.map Prod.fst) →
      ((bucketsOf keyf rows bs).map Prod.fst).Nodup ∧
        (∀ p ∈ bucketsOf keyf rows bs, p.2 = grp keyf (pre ++ rows) p.1 ∧ p.2 ≠ []) ∧
        (∀ r' ∈ pre ++ rows, keyf r' ∈ (bucketsOf keyf rows bs).map Prod.fst)
  | [], bs, pre => by
    intro hnd hgr hcov
    rw [bucketsOf, List.append_nil]
    exact ⟨hnd, hgr, hcov⟩
  | r :: rs, bs, pre => by
    intro hnd hgr hcov
    rw [bucketsOf]
    rcases addToBucket_step keyf r pre bs hnd hgr hcov with ⟨hnd', hgr', hcov'⟩
    have := bucketsOf_invariant keyf rs (addToBucket (keyf r) r bs) (pre ++ [r]) hnd' hgr' hcov'
    rwa [List.append_assoc, List.singleton_append] at this

theorem bucketsOf_spec (keyf : Record → List String) (rows : List Record) :
    ((bucketsOf keyf rows []).map Prod.fst).Nodup ∧
      (∀ p ∈ bucketsOf keyf rows [], p.2 = grp keyf rows p.1 ∧ p.2 ≠ []) ∧
      (∀ r' ∈ rows, keyf r' ∈ (bucketsOf keyf rows []).map Prod.fst) := by
  have := bucketsOf_invariant keyf rows [] [] (by simp) (by simp) (by simp)
  simpa using this

theorem flatten_filter_map (P : Record → Bool) (A : Record → Record) :
    ∀ L : List (List Record),
      (L.map (fun g => (g.filter P).map A)).flatten = (L.flatten.filter P).map A
  | [] => rfl
  | g :: L => by
    simp only [List.map_cons, List.flatten_cons, List.filter_append, List.map_append,
      flatten_filter_map P A L]

theorem dups_perm (nfkc : String → String) (rows : List Record) (mc ic ac : String) (im : Bool) :
    ((bucketsOf (dupKey nfkc mc ic ac im) rows []).map (fun p =>
        if 2 ≤ p.2.length then p.2.map (fun item => annDup item p.2.length) else [])).flatten.Perm
      ((rows.filter (fun r =>
          decide (2 ≤ dupCount (dupKey nfkc mc ic ac im) rows r))).map
        (fun r => annDup r (dupCount (dupKey nfkc mc ic ac im) rows r))) := by
  obtain ⟨hnd, hgr, hcov⟩ := bucketsOf_spec (dupKey nfkc mc ic ac im) rows
  have hpt : ∀ p ∈ bucketsOf (dupKey nfkc mc ic ac im) rows [],
      (if 2 ≤ p.2.length then p.2.map (fun item => annDup item p.2.length) else [])
        = (p.2.filter (fun r => decide (2 ≤ dupCount (dupKey nfkc mc ic ac im) rows r))).map
            (fun r => annDup r (dupCount (dupKey nfkc mc ic ac im) rows r)) := by
    intro p hp
    rcases hgr p hp with ⟨hg, _⟩
    have hcnt : ∀ x ∈ p.2, dupCount (dupKey nfkc mc ic ac im) rows x = p.2.length := by
      intro x hx
      have hxk : dupKey nfkc mc ic ac im x = p.1 := by
        have hx' := hx
        rw [hg, grp] at hx'
        have := (List.mem_filter.mp hx').2
        simpa using this
      rw [dupCount, hxk, ← hg]
    by_cases hlen : 2 ≤ p.2.length
    · rw [if_pos hlen]
      have hfil : p.2.filter (fun r =>
          decide (2 ≤ dupCount (dupKey nfkc mc ic ac im) rows r)) = p.2 := by
        rw [List.filter_eq_self]
        intro x hx
        rw [hcnt x hx]
        exact decide_eq_true hlen
      rw [hfil]
      apply List.map_congr_left
      intro x hx
      rw [hcnt x hx]
    · rw [if_neg hlen]
      have hfil : p.2.filter (fun r =>
          decide (2 ≤ dupCount (dupKey nfkc mc ic ac im) rows r)) = [] := by
        rw [List.filter_eq_nil_iff]
        intro x hx hPx
        rw [hcnt x hx] at hPx
        exact hlen (of_decide_eq_true hPx)
      rw [hfil, List.map_nil]
  rw [List.map_congr_left hpt]
  have h2 : (bucketsOf (dupKey nfkc mc ic ac im) rows []).map (fun p =>
        (p.2.filter (fun r => decide (2 ≤ dupCount (dupKey nfkc mc ic ac im) rows r))).map
          (fun r => annDup r (dupCount (dupKey nfkc mc ic ac im) rows r)))
      = ((bucketsOf (dupKey nfkc mc ic ac im) rows []).map Prod.snd).map (fun g =>
          (g.filter (fun r => decide (2 ≤ dupCount (dupKey nfkc mc ic ac im) rows r))).map
            (fun r => annDup r (dupCount (dupKey nfkc mc ic ac im) rows r))) := by
    rw [List.map_map]
    rfl
  rw [h2, flatten_filter_map]
  have h3 := bucketsOf_flatten_perm (dupKey nfkc mc ic ac im) rows []
  simp only [List.map_nil, List.flatten_nil, List.nil_append] at h3
  exact (h3.filter _).map _

theorem find_dup_perm (nfkc : String → String) (rows : List Record) (mc ic ac : String)
    (im : Bool) :
    (find_duplicate_invoices nfkc rows mc ic ac im).Perm
      ((rows.filter (fun r =>
          decide (2 ≤ dupCount (dupKey nfkc mc ic ac im) rows r))).map
        (fun r => annDup r (dupCount (dupKey nfkc mc ic ac im) rows r))) := by
  refine (List.perm_insertionSort _ _).trans ?_
  exact dups_perm nfkc rows mc ic ac im

theorem find_dup_sorted (nfkc : String → String) (rows : List Record) (mc ic ac : String)
    (im : Bool) :
    List.Sorted (fun x y => key3Le (dupSortKey nfkc mc ic ac im x)
        (dupSortKey nfkc mc ic ac im y) = true)
      (find_duplicate_invoices nfkc rows mc ic ac im) := by
  haveI : IsTotal Record (fun x y => key3Le (dupSortKey nfkc mc ic ac im x)
      (dupSortKey nfkc mc ic ac im y) = true) := ⟨fun a b => key3Le_total _ _⟩
  haveI : IsTrans Record (fun x y => key3Le (dupSortKey nfkc mc ic ac im x)
      (dupSortKey nfkc mc ic ac im y) = true) := ⟨fun a b c => key3Le_trans _ _ _⟩
  exact List.sorted_insertionSort _ _

/-! ## Claims C1 and C2: the duplicate detector -/

/-- C1: as a multiset, the duplicate detector emits exactly one finding per
input occurrence of a record whose normalized key is shared with at least
one other record (`dupCount ≥ 2`), the finding being the record annotated
with `_reason = "duplicate"` and `_dup_count` equal to the number of records
sharing its key; records with a unique key contribute nothing. -/
theorem claim_C1_duplicate_detector (nfkc : String → String) (rows : List Record)
    (mc ic ac : String) (im : Bool) :
    (find_duplicate_invoices nfkc rows mc ic ac im).Perm
      ((rows.filter (fun r =>
          decide (2 ≤ dupCount (dupKey nfkc mc ic ac im) rows r))).map
        (fun r => annDup r (dupCount (dupKey nfkc mc ic ac im) rows r)))
    ∧ (∀ f ∈ find_duplicate_invoices nfkc rows mc ic ac im,
        f.get? "_reason" = some (.str "duplicate") ∧
        ∃ r ∈ rows, 2 ≤ dupCount (dupKey nfkc mc ic ac im) rows r ∧
          f.get? "_dup_count" = some (.int (dupCount (dupKey nfkc mc ic ac im) rows r)) ∧
          f = annDup r (dupCount (dupKey nfkc mc ic ac im) rows r)) := by
  refine ⟨find_dup_perm nfkc rows mc ic ac im, ?_⟩
  intro f hf
  have hf' := (find_dup_perm nfkc rows mc ic ac im).mem_iff.mp hf
  rcases List.mem_map.mp hf' with ⟨r, hr, hfr⟩
  have hrr := List.mem_filter.mp hr
  have hcnt : 2 ≤ dupCount (dupKey nfkc mc ic ac im) rows r := of_decide_eq_true hrr.2
  subst hfr
  refine ⟨?_, r, hrr.1, hcnt, ?_, rfl⟩
  · rw [annDup, get?_set_other _ _ _ _ (by decide), get?_set_same]
  · rw [annDup, get?_set_same]

/-- C2 (amended): the detector's output is sorted ascending by the
normalized key triple, and permuting the input permutes the output — the
output multiset is input-order independent, though the relative order of
findings with equal key triples follows input order. -/
theorem claim_C2_sorted_and_perm_invariant (nfkc : String → String) (rows rows' : List Record)
    (mc ic ac : String) (im : Bool) :
    List.Sorted (fun x y => key3Le (dupSortKey nfkc mc ic ac im x)
        (dupSortKey nfkc mc ic ac im y) = true)
      (find_duplicate_invoices nfkc rows mc ic ac im)
    ∧ (rows.Perm rows' →
        (find_duplicate_invoices nfkc rows mc ic ac im).Perm
          (find_duplicate_invoices nfkc rows' mc ic ac im)) := by
  refine ⟨find_dup_sorted nfkc rows mc ic ac im, ?_⟩
  intro hperm
  have hcnt : ∀ r, dupCount (dupKey nfkc mc ic ac im) rows r
      = dupCount (dupKey nfkc mc ic ac im) rows' r := by
    intro r
    rw [dupCount, dupCount, grp, grp]
    exact (hperm.filter _).length_eq
  refine (find_dup_perm nfkc rows mc ic ac im).trans
    (List.Perm.trans ?_ (find_dup_perm nfkc rows' mc ic ac im).symm)
  have hmap : (rows'.filter (fun r =>
        decide (2 ≤ dupCount (dupKey nfkc mc ic ac im) rows r))).map
        (fun r => annDup r (dupCount (dupKey nfkc mc ic ac im) rows r))
      = (rows'.filter (fun r =>
          decide (2 ≤ dupCount (dupKey nfkc mc ic ac im) rows' r))).map
        (fun r => annDup r (dupCount (dupKey nfkc mc ic ac im) rows' r)) := by
    rw [List.filter_congr (fun x _ => by rw [hcnt x])]
    apply List.map_congr_left
    intro x hx
    rw [hcnt x]
  refine List.Perm.trans ((hperm.filter _).map _) ?_
  rw [hmap]

/-- C2 counterexample: the input `[x-note, y-note]` (two records with the
same normalized key but different `note` columns) and its transposition are
permutations of one another, yet the detector returns different output
sequences — equal-key findings keep input order, so the output sequence is
not invariant under input permutation. -/
theorem claim_C2_counterexample :
    (([[("invoice_no", Value.str "a"), ("amount_usd", Value.str "1"), ("note", Value.str "x")],
       [("invoice_no", Value.str "a"), ("amount_usd", Value.str "1"), ("note", Value.str "y")]] :
        List Record).Perm
      [[("invoice_no", Value.str "a"), ("amount_usd", Value.str "1"), ("note", Value.str "y")],
       [("invoice_no", Value.str "a"), ("amount_usd", Value.str "1"), ("note", Value.str "x")]])
    ∧ find_duplicate_invoices id
        [[("invoice_no", Value.str "a"), ("amount_usd", Value.str "1"), ("note", Value.str "x")],
         [("invoice_no", Value.str "a"), ("amount_usd", Value.str "1"), ("note", Value.str "y")]]
        "merchant" "invoice_no" "amount_usd" true
      ≠ find_duplicate_invoices id
        [[("invoice_no", Value.str "a"), ("amount_usd", Value.str "1"), ("note", Value.str "y")],
         [("invoice_no", Value.str "a"), ("amount_usd", Value.str "1"), ("note", Value.str "x")]]
        "merchant" "invoice_no" "amount_usd" true :=
  ⟨List.Perm.swap _ _ _, by decide⟩

/-! ## Claim C6: findings preserve non-reserved columns -/

theorem not_reserved (k : String) (hk : k ∉ reservedKeys) :
    k ≠ "_reason" ∧ k ≠ "_dup_count" ∧ k ≠ "_details" := by
  simp only [reservedKeys, List.mem_cons, List.not_mem_nil, or_false, not_or] at hk
  exact hk

theorem get?_set1 (r : Record) (k1 : String) (v1 : Value) (k : String) (h1 : k ≠ k1) :
    ((r.set k1 v1)).get? k = r.get? k := get?_set_other r k1 k v1 h1

theorem get?_set2 (r : Record) (k1 k2 : String) (v1 v2 : Value) (k : String)
    (h1 : k ≠ k1) (h2 : k ≠ k2) :
    ((r.set k1 v1).set k2 v2).get? k = r.get? k := by
  rw [get?_set_other _ _ _ _ h2, get?_set_other _ _ _ _ h1]

/-- C6: for each of the five detectors, every emitted finding agrees with
its originating input record on every non-reserved key — only `_reason`,
`_dup_count` and `_details` are added or overwritten (and, the embedding
being purely functional, the input rows themselves are untouched). -/
theorem claim_C6_frame (nfkc : String → String) (rows : List Record)
    (mc ic ac : String) (im : Bool) (dc : String) (fmts : List (String → Option DateT))
    (tc : String) (L B : ℚ) (cols : List String) (ic2 pc : String) :
    (∀ f ∈ find_duplicate_invoices nfkc rows mc ic ac im,
      ∃ r ∈ rows, ∀ k, k ∉ reservedKeys → f.get? k = r.get? k)
    ∧ (∀ f ∈ flag_weekends rows dc fmts,
        ∃ r ∈ rows, ∀ k, k ∉ reservedKeys → f.get? k = r.get? k)
    ∧ (∀ f ∈ flag_threshold rows tc L B,
        ∃ r ∈ rows, ∀ k, k ∉ reservedKeys → f.get? k = r.get? k)
    ∧ (∀ f ∈ flag_suspicious_keywords nfkc rows cols,
        ∃ r ∈ rows, ∀ k, k ∉ reservedKeys → f.get? k = r.get? k)
    ∧ (∀ f ∈ flag_discrepancies rows ic2 pc,
        ∃ r ∈ rows, ∀ k, k ∉ reservedKeys → f.get? k = r.get? k) := by
  refine ⟨?_, ?_, ?_, ?_, ?_⟩
  · intro f hf
    have hf' := (find_dup_perm nfkc rows mc ic ac im).mem_iff.mp hf
    rcases List.mem_map.mp hf' with ⟨r, hr, hfr⟩
    refine ⟨r, (List.mem_filter.mp hr).1, ?_⟩
    intro k hk
    rcases not_reserved k hk with ⟨h1, h2, _⟩
    rw [← hfr, annDup, get?_set2 _ _ _ _ _ _ h1 h2]
  · intro f hf
    rcases (mem_loopEmit _ rows f).mp hf with ⟨r, hr, hg⟩
    refine ⟨r, hr, ?_⟩
    intro k hk
    rcases not_reserved k hk with ⟨h1, _, _⟩
    dsimp only [] at hg
    split at hg
    · exact Option.noConfusion hg
    · split at hg
      · exact Option.noConfusion hg
      · split at hg
        · simp only [Option.some.injEq] at hg
          rw [← hg, get?_set1 _ _ _ _ h1]
        · exact Option.noConfusion hg
  · intro f hf
    rcases (mem_flag_threshold rows tc L B f).mp hf with
      ⟨r, hr, a, _, hcase⟩
    rcases hcase with ⟨_, hfr⟩ | ⟨_, _, _, hfr⟩ <;>
      · refine ⟨r, hr, ?_⟩
        intro k hk
        rcases not_reserved k hk with ⟨h1, _, _⟩
        rw [hfr, get?_set1 _ _ _ _ h1]
  · intro f hf
    rcases (mem_loopEmit _ rows f).mp hf with ⟨r, hr, hg⟩
    refine ⟨r, hr, ?_⟩
    intro k hk
    rcases not_reserved k hk with ⟨h1, _, h3⟩
    dsimp only [] at hg
    split at hg
    · exact Option.noConfusion hg
    · simp only [Option.some.injEq] at hg
      rw [← hg, get?_set2 _ _ _ _ _ _ h1 h3]
  · intro f hf
    rcases (mem_loopEmit _ rows f).mp hf with ⟨r, hr, hg⟩
    refine ⟨r, hr, ?_⟩
    intro k hk
    rcases not_reserved k hk with ⟨h1, _, h3⟩
    dsimp only [] at hg
    split at hg
    · split at hg
      · simp only [Option.some.injEq] at hg
        rw [← hg, get?_set2 _ _ _ _ _ _ h1 h3]
      · exact Option.noConfusion hg
    · exact Option.noConfusion hg

/-! ## Claims C9 and C10: normalized amounts -/

theorem digCh_digit (k : Nat) (h : k < 10) : pyDigit (digCh k) = true := by
  interval_cases k <;> decide

theorem natDigitsAux_props : ∀ (fuel n : Nat), n < fuel →
    natDigitsAux fuel n ≠ [] ∧ ∀ ch ∈ natDigitsAux fuel n, pyDigit ch = true
  | 0, n => by
    intro h
    exact absurd h (Nat.not_lt_zero n)
  | fuel + 1, n => by
    intro h
    rw [natDigitsAux]
    by_cases h10 : n < 10
    · rw [if_pos h10]
      refine ⟨by simp, ?_⟩
      intro ch hch
      rw [List.mem_singleton.mp hch]
      exact digCh_digit n h10
    · rw [if_neg h10]
      have hlt : n / 10 < fuel := by
        have hd := Nat.div_lt_self (show 0 < n by omega) (show 1 < 10 by omega)
        omega
      have hrec := natDigitsAux_props fuel (n / 10) hlt
      refine ⟨by simp [hrec.1], ?_⟩
      intro ch hch
      rcases List.mem_append.mp hch with hch | hch
      · exact hrec.2 ch hch
      · rw [List.mem_singleton.mp hch]
        exact digCh_digit _ (Nat.mod_lt n (by omega))

theorem natDigits_props (m : Nat) :
    natDigits m ≠ [] ∧ ∀ ch ∈ natDigits m, pyDigit ch = true :=
  natDigitsAux_props (m + 1) m (Nat.lt_succ_self m)

theorem isFixed2_of_shape (sign : List Char) (hsign : sign = ['-'] ∨ sign = [])
    (ds : List Char) (hne : ds ≠ []) (hds : ∀ ch ∈ ds, pyDigit ch = true)
    (d1 d2 : Char) (h1 : pyDigit d1 = true) (h2 : pyDigit d2 = true) :
    isFixed2Str ⟨sign ++ ds ++ ['.', d1, d2]⟩ = true := by
  have hrev : (ds ++ ['.', d1, d2]).reverse = d2 :: d1 :: '.' :: ds.reverse := by
    simp
  have hcore : (match (ds ++ ['.', d1, d2]).reverse with
      | c2 :: c1 :: '.' :: rest => pyDigit c1 && pyDigit c2 && !rest.isEmpty && rest.all pyDigit
      | _ => false) = true := by
    rw [hrev]
    simp only [h1, h2, Bool.true_and, Bool.and_eq_true, Bool.not_eq_true']
    refine ⟨by simpa using hne, ?_⟩
    rw [List.all_eq_true]
    intro ch hch
    exact hds ch (List.mem_reverse.mp hch)
  rw [isFixed2Str]
  rcases hsign with hs | hs
  · rw [hs]
    exact hcore
  · rw [hs, List.nil_append]
    rcases hd : ds with _ | ⟨c, t⟩
    · exact absurd hd hne
    · have hc : pyDigit c = true := hds c (by rw [hd]; exact List.mem_cons_self c t)
      have hcne : c ≠ '-' := by
        intro hcc
        rw [hcc] at hc
        exact Bool.noConfusion hc
      rw [← hd]
      rw [show ((match (ds ++ ['.', d1, d2] : List Char) with
          | '-' :: t => t
          | t => t) : List Char) = ds ++ ['.', d1, d2] by
        rw [hd, List.cons_append]
        split
        next heq =>
          have : c = '-' := by
            have := congrArg List.head? heq
            simpa using this
          exact absurd this hcne
        next => rfl]
      exact hcore

theorem isFixed2_fmtFixed2 (q : ℚ) : isFixed2Str (fmtFixed2 q) = true := by
  rw [fmtFixed2]
  refine isFixed2_of_shape _ ?_ _ (natDigits_props _).1 (natDigits_props _).2 _ _
    (digCh_digit _ (by omega)) (digCh_digit _ (by omega))
  by_cases hneg : q.num < 0
  · exact Or.inl (if_pos hneg)
  · exact Or.inr (if_neg hneg)

theorem fmt2_shape (x : PyFloat) :
    x.fmt2 = "nan" ∨ x.fmt2 = "inf" ∨ x.fmt2 = "-inf" ∨ isFixed2Str x.fmt2 = true := by
  cases x with
  | finite q => exact Or.inr (Or.inr (Or.inr (isFixed2_fmtFixed2 q)))
  | infinite n => cases n <;> simp [PyFloat.fmt2]
  | nan => simp [PyFloat.fmt2]

theorem fmtFixed2_ne_empty (q : ℚ) : fmtFixed2 q ≠ "" := by
  rw [fmtFixed2]
  intro hc
  have hdata := congrArg String.data hc
  rcases natDigits_props ((rhalfEven (qmul (qabs q) (qOfInt 100))).toNat / 100) with ⟨hne, _⟩
  rcases hd : natDigits ((rhalfEven (qmul (qabs q) (qOfInt 100))).toNat / 100) with _ | ⟨c, t⟩
  · exact hne hd
  · rw [hd] at hdata
    by_cases hneg : q.num < 0 <;> simp [hneg] at hdata

theorem fmt2_ne_empty (x : PyFloat) : x.fmt2 ≠ "" := by
  cases x with
  | finite q => exact fmtFixed2_ne_empty q
  | infinite n => cases n <;> decide
  | nan => decide

/-- C9 (amended): `normalize_amount` returns the empty string, or one of the
non-finite spellings `"nan"`/`"inf"`/`"-inf"`, or a fixed-point numeral with
exactly two fractional digits (never scientific notation); and it returns
the empty string exactly when the input is missing or fails float parsing
after stripping `$`, `,` and surrounding whitespace. -/
theorem claim_C9_normalize_amount_shape (s : Option String) :
    (normalize_amount (s.map .str) = "" ↔
      (s = none ∨ ∃ t, s = some t ∧ parsePyFloat (moneyRaw t) = none))
    ∧ (normalize_amount (s.map .str) = "" ∨ normalize_amount (s.map .str) = "nan" ∨
       normalize_amount (s.map .str) = "inf" ∨ normalize_amount (s.map .str) = "-inf" ∨
       isFixed2Str (normalize_amount (s.map .str)) = true) := by
  cases s with
  | none =>
    refine ⟨?_, Or.inl rfl⟩
    simp [normalize_amount]
  | some t =>
    simp only [Option.map_some']
    rw [normalize_amount]
    simp only [Value.pyStr]
    cases hp : parsePyFloat (moneyRaw t) with
    | none =>
      refine ⟨?_, Or.inl rfl⟩
      simp [hp]
    | some x =>
      constructor
      · constructor
        · intro he
          exact absurd he (fmt2_ne_empty x)
        · rintro (hc | ⟨t', ht', hc⟩)
          · exact Option.noConfusion hc
          · have : t' = t := by
              have := Option.some.injEq t t' ▸ ht'
              simpa using ht'.symm
            rw [this] at hc
            rw [hp] at hc
            exact Option.noConfusion hc
      · rcases fmt2_shape x with h | h | h | h
        · exact Or.inr (Or.inl h)
        · exact Or.inr (Or.inr (Or.inl h))
        · exact Or.inr (Or.inr (Or.inr (Or.inl h)))
        · exact Or.inr (Or.inr (Or.inr (Or.inr h)))

/-- C9 counterexample: the input `"nan"` is accepted by `float`, and the
two-decimal format then prints `"nan"` — neither empty nor a fixed-point
numeral with two fractional digits, contradicting the claimed shape. -/
theorem claim_C9_counterexample :
    normalize_amount (some (.str "nan")) = "nan" ∧ ("nan" : String) ≠ "" ∧
      isFixed2Str "nan" = false := by
  refine ⟨by decide, by decide, by decide⟩

/-- C10 (amended): `parse_float` fails exactly when `normalize_amount`
returns the empty string, and whenever `parse_float` returns `v`,
`normalize_amount` returns `v` rendered by the two-decimal formatter —
which yields a fixed-point two-fractional-digit numeral for finite values
and `"nan"`/`"inf"`/`"-inf"` for the non-finite ones. -/
theorem claim_C10_parse_normalize_agree (s : Option String) :
    (parse_float (s.map .str) = none ↔ normalize_amount (s.map .str) = "")
    ∧ (∀ v, parse_float (s.map .str) = some v → normalize_amount (s.map .str) = v.fmt2) := by
  cases s with
  | none =>
    constructor
    · simp [parse_float, normalize_amount]
    · intro v hv
      simp [parse_float] at hv
  | some t =>
    simp only [Option.map_some']
    by_cases ht : t = ""
    · subst ht
      constructor
      · constructor
        · intro _
          decide
        · intro _
          decide
      · intro v hv
        rw [show parse_float (some (.str "")) = none by decide] at hv
        exact Option.noConfusion hv
    · have hf : (Value.str t).pyFalsy = false := by
        simp [Value.pyFalsy, ht]
      rw [parse_float, normalize_amount]
      simp only [hf, Bool.false_eq_true, if_false, Value.pyStr]
      cases hp : parsePyFloat (moneyRaw t) with
      | none =>
        constructor
        · simp
        · intro v hv
          exact Option.noConfusion hv
      | some x =>
        constructor
        · constructor
          · intro hc
            exact Option.noConfusion hc
          · intro hc
            exact absurd hc (fmt2_ne_empty x)
        · intro v hv
          rw [(Option.some.injEq x v).mp hv]

/-- C10 counterexample: on input `"nan"` the parser returns a value
(`float("nan")` succeeds), but the normalizer's rendering of that value is
`"nan"`, which is not a fixed-point numeral with two fractional digits as
the claim states. -/
theorem claim_C10_counterexample :
    parse_float (some (.str "nan")) = some PyFloat.nan ∧
      normalize_amount (some (.str "nan")) = "nan" ∧ isFixed2Str "nan" = false := by
  refine ⟨by decide, by decide, by decide⟩

/-! ## Witnesses: the claim theorems applied at concrete inputs -/

/-- Witness for C1 at the spec's duplicate scenario. -/
theorem claim_C1_witness :
    Record.get?
      (annDup [("merchant", Value.str "Acme"), ("invoice_no", Value.str "INV-1"),
        ("amount_usd", Value.str "100.00")] 2) "_reason" = some (Value.str "duplicate") := by
  have h := (claim_C1_duplicate_detector id
    [[("merchant", Value.str "Acme"), ("invoice_no", Value.str "INV-1"),
      ("amount_usd", Value.str "100.00")],
     [("merchant", Value.str "ACME"), ("invoice_no", Value.str "inv-1"),
      ("amount_usd", Value.str "$100.00")]]
    "merchant" "invoice_no" "amount_usd" true).2
    (annDup [("merchant", Value.str "Acme"), ("invoice_no", Value.str "INV-1"),
      ("amount_usd", Value.str "100.00")] 2) (by decide)
  exact h.1

/-- Witness for C2: the counterexample inputs still yield permutation-equal
outputs. -/
theorem claim_C2_witness :
    (find_duplicate_invoices id
      [[("invoice_no", Value.str "a"), ("amount_usd", Value.str "1"), ("note", Value.str "y")],
       [("invoice_no", Value.str "a"), ("amount_usd", Value.str "1"), ("note", Value.str "x")]]
      "merchant" "invoice_no" "amount_usd" true).Perm
    (find_duplicate_invoices id
      [[("invoice_no", Value.str "a"), ("amount_usd", Value.str "1"), ("note", Value.str "x")],
       [("invoice_no", Value.str "a"), ("amount_usd", Value.str "1"), ("note", Value.str "y")]]
      "merchant" "invoice_no" "amount_usd" true) :=
  (claim_C2_sorted_and_perm_invariant id _ _ "merchant" "invoice_no" "amount_usd" true).2
    (List.Perm.swap _ _ _)

/-- Witness for C3 at the spec's boundary scenario (`limit = 5000`,
`buffer = 200`, amount exactly 5000). -/
theorem claim_C3_witness :
    PyFloat.gtv (.finite 5000) 5000 = false ∧ qltF ((5000 : ℚ) - 200) (.finite 5000) = true ∧
      PyFloat.lev (.finite 5000) 5000 = true :=
  (claim_C3_threshold [] "amount_usd" 5000 200).2.2 (by norm_num)

/-- Witness for C4 on a one-row input. -/
theorem claim_C4_witness :
    ∃ rep, calculate_benford_stats (fun _ => 0) [[("amount_usd", Value.str "1999")]] "amount_usd"
      = .ok rep ∧ rep.total_analyzed = 1 := by
  obtain ⟨rep, h1, h2, _⟩ := claim_C4_benford_report (fun _ => 0)
    [[("amount_usd", Value.str "1999")]] "amount_usd" (by decide)
  refine ⟨rep, h1, ?_⟩
  rw [h2]
  decide

/-- Witness for C5 on a one-row input with a valid sample. -/
theorem claim_C5_witness :
    ∃ rep, calculate_benford_stats (fun _ => 0) [[("amount_usd", Value.str "55")]] "amount_usd"
      = .ok rep :=
  (claim_C5_benford_error_iff (fun _ => 0) [[("amount_usd", Value.str "55")]] "amount_usd").2
    (by decide)

/-- Witness for C6: the weekend finding of the Saturday scenario agrees with
its input row outside the reserved keys. -/
theorem claim_C6_witness :
    ∃ r ∈ ([[("expense_date", Value.str "2024-01-06")]] : List Record),
      ∀ k, k ∉ reservedKeys →
        Record.get? [("expense_date", Value.str "2024-01-06"), ("_reason", Value.str "weekend")] k
          = Record.get? r k := by
  have h := (claim_C6_frame id [[("expense_date", Value.str "2024-01-06")]] "merchant"
    "invoice_no" "amount_usd" true "expense_date" defaultFmts "amount_usd" 5000 200
    ["merchant"] "amount_usd" "paid_amount_usd").2.1
  exact h _ (by decide)

/-- Witness for C7 at the Saturday scenario rows. -/
theorem claim_C7_witness :
    flag_weekends [[("expense_date", Value.str "2024-01-06")]] "expense_date" defaultFmts
      = (([[("expense_date", Value.str "2024-01-06")]] : List Record).filter
          (weekendP "expense_date" defaultFmts)).map
          (fun r => r.set "_reason" (.str "weekend")) :=
  claim_C7_weekend_filter [[("expense_date", Value.str "2024-01-06")]] "expense_date" defaultFmts

/-- Witness for C8 at the spec's $5.50-gap scenario. -/
theorem claim_C8_witness :
    [("amount_usd", Value.str "300.00"), ("paid_amount_usd", Value.str "305.50"),
     ("_reason", Value.str "discrepancy"), ("_details", Value.str "Diff: $5.50")] ∈
      flag_discrepancies
        [[("amount_usd", Value.str "300.00"), ("paid_amount_usd", Value.str "305.50")]]
        "amount_usd" "paid_amount_usd" := by
  refine (claim_C8_discrepancy
      [[("amount_usd", Value.str "300.00"), ("paid_amount_usd", Value.str "305.50")]]
      "amount_usd" "paid_amount_usd" _).mpr
    ⟨[("amount_usd", Value.str "300.00"), ("paid_amount_usd", Value.str "305.50")],
     by decide, .finite 300, .finite (mkRat 611 2), by decide, by decide, ?_, by decide⟩
  rw [← mkRat_one_hundred]
  decide

/-- Witness for C9 on the input `"7"`. -/
theorem claim_C9_witness :
    normalize_amount ((some "7").map Value.str) = "" ∨
    normalize_amount ((some "7").map Value.str) = "nan" ∨
    normalize_amount ((some "7").map Value.str) = "inf" ∨
    normalize_amount ((some "7").map Value.str) = "-inf" ∨
    isFixed2Str (normalize_amount ((some "7").map Value.str)) = true :=
  (claim_C9_normalize_amount_shape (some "7")).2

/-- Witness for C10 on the input `"1,234.5"`. -/
theorem claim_C10_witness :
    normalize_amount ((some "1,234.5").map Value.str) = (PyFloat.finite (mkRat 2469 2)).fmt2 :=
  (claim_C10_parse_normalize_agree (some "1,234.5")).2 _ (by decide)
